import Mathlib

/-!
# ChewingTextService: key routing and composition state machine

A shallow embedding of `src/ChewingTextService/ChewingTextService.cpp`.

* The phonetic engine (libchewing) is an external black box.  It is embedded as a
  record `Env σ` of commands and queries over an abstract engine state `σ`; every
  theorem quantifies over all such records, concrete toy engines are used only to
  evaluate the code on explicit inputs.
* `assert(p)` is embedded with its debug-build meaning: when `p` fails the
  function has no result (`none`).  An uncaught C++ exception (the range check of
  `std::wstring::insert`) is embedded the same way.
* The state of a `TextService` object is the record `TextService σ`.  Besides
  the member variables of the class it carries the composition object of the
  libIME base class, the table of armed window timers, and a log of the effects
  sent to the engine and to the host document.
-/

namespace Chewing

/-! ## Constants of the platform and of the engine headers -/

def VK_BACK : Nat := 0x08
def VK_TAB : Nat := 0x09
def VK_RETURN : Nat := 0x0D
def VK_SHIFT : Nat := 0x10
def VK_CONTROL : Nat := 0x11
def VK_MENU : Nat := 0x12
def VK_CAPITAL : Nat := 0x14
def VK_ESCAPE : Nat := 0x1B
def VK_SPACE : Nat := 0x20
def VK_PRIOR : Nat := 0x21
def VK_NEXT : Nat := 0x22
def VK_END : Nat := 0x23
def VK_HOME : Nat := 0x24
def VK_LEFT : Nat := 0x25
def VK_UP : Nat := 0x26
def VK_RIGHT : Nat := 0x27
def VK_DOWN : Nat := 0x28
def VK_DELETE : Nat := 0x2E
def VK_NUMPAD0 : Nat := 0x60
def VK_DIVIDE : Nat := 0x6F
def VK_NUMLOCK : Nat := 0x90

/-- Value of the engine's language-mode flag in phonetic (Chinese) mode. -/
def CHINESE_MODE : Int := 1
/-- Value of the engine's language-mode flag in alphabetic (English) mode. -/
def SYMBOL_MODE : Int := 0
def FULLSHAPE_MODE : Int := 1
def HALFSHAPE_MODE : Int := 0

/-! ## Character classification of the C library, "C" locale -/

def isprint (c : Nat) : Bool := decide (0x20 ≤ c ∧ c ≤ 0x7E)
def isgraph (c : Nat) : Bool := decide (0x21 ≤ c ∧ c ≤ 0x7E)
def isupper (c : Nat) : Bool := decide (0x41 ≤ c ∧ c ≤ 0x5A)
def islower (c : Nat) : Bool := decide (0x61 ≤ c ∧ c ≤ 0x7A)
def isalpha (c : Nat) : Bool := isupper c || islower c
def isdigit (c : Nat) : Bool := decide (0x30 ≤ c ∧ c ≤ 0x39)
def tolower (c : Nat) : Nat := if isupper c then c + 0x20 else c
def toupper (c : Nat) : Nat := if islower c then c - 0x20 else c

/-! ## Data model -/

/-- A narrow string handed out by the engine (the bytes before the terminator). -/
abbrev CStr := List Nat
/-- A wide string: the sequence of `wchar_t` units before the terminator. -/
abbrev WStr := List Nat

/-- The key event handed in by libIME (`Ime::KeyEvent`).  The class is declared
outside this source file; its accessors are the fields of the record. -/
structure KeyEvent where
  keyCode : Nat
  charCode : Nat
  isChar : Bool
  isKeyDown : Nat → Bool
  isKeyToggled : Nat → Bool

/-- The edit session handed to `onKeyDown` (`Ime::EditSession`): what the host
document answers when asked for the screen rectangle of the selection. The
answer is the pair `(left, bottom)` of the rectangle. -/
structure EditSession where
  selectionRect : Option (Int × Int)

/-- The fields of the configuration record read by this file. -/
structure Config where
  enableCapsLock : Bool
  fullShapeSymbols : Bool
  defaultEnglish : Bool
  defaultFullSpace : Bool
  candPerRow : Int
  candPerPage : Int
  addPhraseForward : Bool
  advanceAfterSelection : Bool
  escCleanAllBuf : Bool
  keyboardLayout : Int
  showCandWithSpaceKey : Bool
  selKeyRow : List Nat

/-- The key commands of the engine (`chewing_handle_*`). -/
inductive EngineCmd where
  | Default (c : Nat)
  | Space
  | CtrlNum (c : Nat)
  | Numlock (c : Nat)
  | Esc
  | Enter
  | Tab
  | Del
  | Backspace
  | Up
  | Down
  | Left
  | Right
  | Home
  | End
  | PageUp
  | PageDown
  deriving DecidableEq, Repr

/-- The configuration mutators of the engine (`chewing_set_*` of `applyConfig`
and `initChewingContext`). -/
inductive EngineSetting where
  | maxChiSymbolLen (n : Int)
  | addPhraseDirection (b : Bool)
  | autoShiftCur (b : Bool)
  | candPerPage (n : Int)
  | escCleanAllBuf (b : Bool)
  | KBType (n : Int)
  | spaceAsSelection (b : Bool)
  | selKey (keys : List Int)
  deriving DecidableEq, Repr

/-- The external collaborators: the libchewing engine over its state `σ`, and
the libIME string conversion.  Queries are functions of the engine state; the
candidate enumeration (`chewing_cand_Enumerate`, `chewing_cand_hasNext`,
`chewing_cand_String`) is the list of strings that successive calls yield. -/
structure Env (σ : Type) where
  chewing_new : σ
  handle : σ → EngineCmd → σ
  set : σ → EngineSetting → σ
  get_ChiEngMode : σ → Int
  set_ChiEngMode : σ → Int → σ
  get_ShapeMode : σ → Int
  set_ShapeMode : σ → Int → σ
  keystroke_CheckIgnore : σ → Bool
  candidatesReady : σ → Bool
  cand_ChoicePerPage : σ → Int
  cand_Enumerate : σ → List CStr
  get_selKey : σ → List Int
  commit_Check : σ → Bool
  commit_String : σ → CStr
  buffer_Check : σ → Bool
  buffer_String : σ → Option CStr
  zuin_Check : σ → Bool
  zuin_String : σ → Option CStr
  cursor_Current : σ → Int
  aux_Check : σ → Bool
  aux_String : σ → CStr
  utf8ToUtf16 : CStr → WStr

/-- Effects sent to the engine and to the host document, in the order issued. -/
inductive Effect where
  | engine (cmd : EngineCmd)
  | setChiEngMode (mode : Int)
  | setShapeMode (mode : Int)
  | startComposition
  | setCompositionString (text : WStr)
  | endComposition
  | setCompositionCursor (pos : Int)
  deriving DecidableEq, Repr

/-- The composition object held by the libIME base class while composing. -/
structure Composition where
  text : WStr
  cursor : Int
  deriving DecidableEq, Repr

/-- The candidate list window (`Ime::CandidateWindow`): the page of
`(text, selector key)` entries and its display attributes. -/
structure CandidateWindow where
  items : List (WStr × Option Nat)
  candPerRow : Int
  pos : Option (Int × Int)
  visible : Bool
  deriving DecidableEq, Repr

/-- A freshly constructed candidate window: empty and not yet shown. -/
def CandidateWindow.new : CandidateWindow :=
  { items := [], candPerRow := 0, pos := none, visible := false }

/-- The transient message window (`Ime::MessageWindow`). -/
structure MessageWindow where
  hwnd : Nat
  text : WStr
  x : Int
  y : Int
  visible : Bool
  deriving DecidableEq, Repr

/-- An armed window timer (`SetTimer`): the window it belongs to, its id and its
timeout in milliseconds. -/
structure Timer where
  hwnd : Nat
  id : Nat
  elapse : Int
  deriving DecidableEq, Repr

inductive Icon where
  | unset
  | IDI_CHI
  | IDI_ENG
  | IDI_FULL_SHAPE
  | IDI_HALF_SHAPE
  deriving DecidableEq, Repr

/-- State of a `TextService` object.  The first eight fields are the members
that the constructor initialises.  `composition_` is the composition of the
libIME base class, `keyboardOpen` its keyboard open/close compartment,
`langIcon` and `shapeIcon` the icons of the two language bar buttons, `timers`
the armed window timers, `nextHwnd` the next fresh window
handle and `log` the effects issued so far. -/
structure TextService (σ : Type) where
  showingCandidates_ : Bool
  langMode_ : Int
  shapeMode_ : Int
  lastKeyDownCode_ : Nat
  messageWindow_ : Option MessageWindow
  messageTimerId_ : Nat
  candidateWindow_ : Option CandidateWindow
  chewingContext_ : Option σ
  composition_ : Option Composition
  keyboardOpen : Bool
  langIcon : Icon
  shapeIcon : Icon
  timers : List Timer
  nextHwnd : Nat
  log : List Effect

variable {σ : Type}

/-- `TextService::TextService`: the state after construction. -/
def TextService.new : TextService σ :=
  { showingCandidates_ := false
    langMode_ := -1
    shapeMode_ := -1
    lastKeyDownCode_ := 0
    messageWindow_ := none
    messageTimerId_ := 0
    candidateWindow_ := none
    chewingContext_ := none
    composition_ := none
    keyboardOpen := true
    langIcon := Icon.unset
    shapeIcon := Icon.unset
    timers := []
    nextHwnd := 1
    log := [] }

/-! ## Primitives of the libIME base class -/

/-- Modelled from the spec: `Ime::TextService::isComposing` of the libIME base
class (not in this source file); the composition session is active exactly while
a composition object exists. -/
def isComposing (s : TextService σ) : Bool := s.composition_.isSome

/-- Modelled from the spec: `Ime::TextService::startComposition` (libIME, not in
this source file), "begin a scoped composition edit": a fresh, empty composition
becomes active. -/
def startComposition (s : TextService σ) : TextService σ :=
  { s with composition_ := some { text := [], cursor := 0 }
           log := s.log ++ [Effect.startComposition] }

/-- Modelled from the spec: `Ime::TextService::endComposition` (libIME, not in
this source file), "end a scoped composition edit": the composition is no longer
active. -/
def endComposition (s : TextService σ) : TextService σ :=
  { s with composition_ := none
           log := s.log ++ [Effect.endComposition] }

/-- Modelled from the spec: `Ime::TextService::setCompositionString` (libIME, not
in this source file), "replace composition text": the text of the active
composition is replaced; without a composition the operation is skipped. -/
def setCompositionString (s : TextService σ) (str : WStr) : TextService σ :=
  match s.composition_ with
  | some c => { s with composition_ := some { c with text := str }
                       log := s.log ++ [Effect.setCompositionString str] }
  | none => s

/-- Modelled from the spec: `Ime::TextService::setCompositionCursor` (libIME, not
in this source file), "set composition cursor"; without a composition the
operation is skipped. -/
def setCompositionCursor (s : TextService σ) (pos : Int) : TextService σ :=
  match s.composition_ with
  | some c => { s with composition_ := some { c with cursor := pos }
                       log := s.log ++ [Effect.setCompositionCursor pos] }
  | none => s

/-- Modelled from the spec: `TextService::hasCandidates` (declared in the class
header, not in this source file), the adapter query `candidatesReady`: the
engine reports at least one pending candidate. -/
def hasCandidates (E : Env σ) (ctx : σ) : Bool := E.candidatesReady ctx

/-- Modelled from the spec: `TextService::showingCandidates` (declared in the
class header, not in this source file): the candidate list is shown. -/
def showingCandidates (s : TextService σ) : Bool := s.showingCandidates_

/-! ## Key Router -/

/-- `TextService::filterKeyDown` (lines 145-181). -/
def filterKeyDown (s : TextService σ) (keyEvent : KeyEvent) : Option (TextService σ × Bool) :=
  let s1 := { s with lastKeyDownCode_ := keyEvent.keyCode }
  match s1.chewingContext_ with
  | none => none
  | some _ =>
    if !isComposing s1 then
      if s1.langMode_ ≠ CHINESE_MODE then some (s1, false)
      else if keyEvent.isKeyToggled VK_CAPITAL then some (s1, false)
      else if keyEvent.isKeyToggled VK_NUMLOCK
          && (decide (keyEvent.keyCode ≥ VK_NUMPAD0) && decide (keyEvent.keyCode ≤ VK_DIVIDE)) then
        some (s1, false)
      else if keyEvent.isKeyDown VK_CONTROL || keyEvent.isKeyDown VK_MENU then some (s1, false)
      else if keyEvent.isChar && isgraph keyEvent.charCode then some (s1, true)
      else some (s1, false)
    else some (s1, true)

/-! ## Mode display -/

/-- `TextService::updateLangButtons` (lines 713-728). -/
def updateLangButtons (E : Env σ) (s : TextService σ) : TextService σ :=
  match s.chewingContext_ with
  | none => s
  | some ctx =>
    let langMode := E.get_ChiEngMode ctx
    let s1 :=
      if langMode ≠ s.langMode_ then
        { s with langMode_ := langMode
                 langIcon := if langMode = CHINESE_MODE then Icon.IDI_CHI else Icon.IDI_ENG }
      else s
    let shapeMode := E.get_ShapeMode ctx
    if shapeMode ≠ s1.shapeMode_ then
      { s1 with shapeMode_ := shapeMode
                shapeIcon := if shapeMode = FULLSHAPE_MODE then Icon.IDI_FULL_SHAPE
                             else Icon.IDI_HALF_SHAPE }
    else s1

/-! ## Message window -/

/-- `TextService::hideMessage` (lines 686-695).  `KillTimer` disarms the timer
of the message window; reading the handle of a window that does not exist has no
result.  Deleting the window destroys it together with its timers. -/
def hideMessage (s : TextService σ) : Option (TextService σ) :=
  let killed : Option (TextService σ) :=
    if s.messageTimerId_ ≠ 0 then
      match s.messageWindow_ with
      | none => none
      | some w =>
        some { s with timers := s.timers.filter
                                  (fun t => !(t.hwnd = w.hwnd && t.id = s.messageTimerId_))
                      messageTimerId_ := 0 }
    else some s
  killed.map fun s1 =>
    match s1.messageWindow_ with
    | some w =>
      { s1 with messageWindow_ := none
                timers := s1.timers.filter (fun t => t.hwnd ≠ w.hwnd) }
    | none => s1

/-- `TextService::showMessage` (lines 665-684).  `SetTimer` with a window handle
and timer id 1 arms that timer and returns its id. -/
def showMessage (s : TextService σ) (session : EditSession) (message : WStr) (duration : Int) :
    Option (TextService σ) :=
  (hideMessage s).map fun s1 =>
    let xy : Int × Int :=
      if isComposing s1 then
        match session.selectionRect with
        | some rc => rc
        | none => (0, 0)
      else (0, 0)
    let w : MessageWindow :=
      { hwnd := s1.nextHwnd, text := message, x := xy.1, y := xy.2, visible := true }
    let timer : Timer := { hwnd := w.hwnd, id := 1, elapse := duration * 1000 }
    { s1 with messageWindow_ := some w
              nextHwnd := s1.nextHwnd + 1
              timers := timer :: s1.timers.filter (fun t => !(t.hwnd = w.hwnd && t.id = 1))
              messageTimerId_ := timer.id }

/-- `TextService::onMessageTimeout` (lines 698-700). -/
def onMessageTimeout (s : TextService σ) : Option (TextService σ) := hideMessage s

/-! ## Candidate window -/

/-- The conversion `(wchar_t)k` of an `int` selection key. -/
def toWchar (k : Int) : Nat := (k % 65536).toNat

/-- The loop of `TextService::updateCandidates` (lines 613-619): `i` is the loop
counter, the list holds the strings the enumeration still yields (`hasNext` is
its non-emptiness), `items` the entries added so far.  An entry whose index lies
outside the selection-key array has no selector (`none`). -/
def fillPage (E : Env σ) (selKeys : List Int) (n : Int) :
    Nat → List CStr → List (WStr × Option Nat) → List (WStr × Option Nat)
  | _, [], items => items
  | i, str :: rest, items =>
    if (i : Int) < n then
      fillPage E selKeys n (i + 1) rest
        (items ++ [(E.utf8ToUtf16 str, (selKeys.get? i).map toWchar)])
    else items

/-- The page filled in by `TextService::updateCandidates` (lines 609-620),
starting from the entries `items` already in the window: the selection keys and
the number of candidates per page are read from the engine and the enumeration
is run from its start. -/
def candidatePage (E : Env σ) (ctx : σ) (items : List (WStr × Option Nat)) :
    List (WStr × Option Nat) :=
  let selKeys := E.get_selKey ctx
  let n := E.cand_ChoicePerPage ctx
  fillPage E selKeys n 0 (E.cand_Enumerate ctx) items

/-- `TextService::updateCandidates` (lines 604-630). -/
def updateCandidates (E : Env σ) (cfg : Config) (s : TextService σ) (session : EditSession) :
    Option (TextService σ) :=
  match s.candidateWindow_, s.chewingContext_ with
  | some w, some ctx =>
    let w1 := { w with items := [], candPerRow := cfg.candPerRow }
    let w2 := { w1 with items := candidatePage E ctx w1.items }
    let w3 :=
      match session.selectionRect with
      | some rc => { w2 with pos := some rc }
      | none => w2
    some { s with candidateWindow_ := some w3 }
  | _, _ => none

/-- `TextService::showCandidates` (lines 633-651). -/
def showCandidates (E : Env σ) (cfg : Config) (s : TextService σ) (session : EditSession) :
    Option (TextService σ) :=
  let s1 :=
    match s.candidateWindow_ with
    | none =>
      { s with candidateWindow_ := some CandidateWindow.new }
    | some _ => s
  (updateCandidates E cfg s1 session).map fun s2 =>
    { s2 with candidateWindow_ := s2.candidateWindow_.map (fun w => { w with visible := true })
              showingCandidates_ := true }

/-- `TextService::hideCandidates` (lines 654-661). -/
def hideCandidates (s : TextService σ) : Option (TextService σ) :=
  match s.candidateWindow_ with
  | none => none
  | some _ => some { s with candidateWindow_ := none, showingCandidates_ := false }

/-! ## Composition State Machine -/

/-- The flag `temporaryEnglishMode` of `onKeyDown` (lines 201-207). -/
def temporaryEnglishMode (cfg : Config) (keyEvent : KeyEvent) : Bool :=
  (cfg.enableCapsLock && keyEvent.isKeyToggled VK_CAPITAL)
    || (!cfg.fullShapeSymbols && keyEvent.isKeyDown VK_SHIFT)

/-- The `switch` over the named non-printable keys of `onKeyDown` (lines
237-279); `none` is the `default` case. -/
def namedKey (keyCode : Nat) : Option EngineCmd :=
  if keyCode = VK_ESCAPE then some EngineCmd.Esc
  else if keyCode = VK_RETURN then some EngineCmd.Enter
  else if keyCode = VK_TAB then some EngineCmd.Tab
  else if keyCode = VK_DELETE then some EngineCmd.Del
  else if keyCode = VK_BACK then some EngineCmd.Backspace
  else if keyCode = VK_UP then some EngineCmd.Up
  else if keyCode = VK_DOWN then some EngineCmd.Down
  else if keyCode = VK_LEFT then some EngineCmd.Left
  else if keyCode = VK_RIGHT then some EngineCmd.Right
  else if keyCode = VK_HOME then some EngineCmd.Home
  else if keyCode = VK_END then some EngineCmd.End
  else if keyCode = VK_PRIOR then some EngineCmd.PageUp
  else if keyCode = VK_NEXT then some EngineCmd.PageDown
  else none

/-- The Chinese-mode command selection of `onKeyDown` (lines 223-234). -/
def chineseModeCmd (keyEvent : KeyEvent) (charCode : Nat) : EngineCmd :=
  if isalpha charCode then EngineCmd.Default (tolower charCode)
  else if keyEvent.keyCode = VK_SPACE then EngineCmd.Space
  else if keyEvent.isKeyDown VK_CONTROL && isdigit charCode then EngineCmd.CtrlNum charCode
  else if keyEvent.isKeyToggled VK_NUMLOCK
      && (decide (keyEvent.keyCode ≥ VK_NUMPAD0) && decide (keyEvent.keyCode ≤ VK_DIVIDE)) then
    EngineCmd.Numlock charCode
  else EngineCmd.Default charCode

/-- The test `charCode && isprint(charCode)` by which `onKeyDown` chooses its
printable-character branch (line 199). -/
def printableKey (keyEvent : KeyEvent) : Bool :=
  decide (keyEvent.charCode ≠ 0) && isprint keyEvent.charCode

/-- Step 1 of `onKeyDown` (lines 198-280): the command issued to the engine.
The result is the engine state after the command together with the effects
issued; `none` is the `return false` of the `default` case. -/
def handleKey (E : Env σ) (cfg : Config) (langMode_ : Int) (ctx : σ) (keyEvent : KeyEvent) :
    Option (σ × List Effect) :=
  let charCode := keyEvent.charCode
  if printableKey keyEvent then
    let oldLangMode := E.get_ChiEngMode ctx
    if langMode_ = SYMBOL_MODE then
      some (E.handle ctx (EngineCmd.Default charCode), [Effect.engine (EngineCmd.Default charCode)])
    else if temporaryEnglishMode cfg keyEvent then
      let ctx1 := E.set_ChiEngMode ctx SYMBOL_MODE
      let charCode1 :=
        if isalpha charCode then
          (if isupper charCode then tolower charCode else toupper charCode)
        else charCode
      let ctx2 := E.handle ctx1 (EngineCmd.Default charCode1)
      let ctx3 := E.set_ChiEngMode ctx2 oldLangMode
      some (ctx3, [Effect.setChiEngMode SYMBOL_MODE, Effect.engine (EngineCmd.Default charCode1),
                   Effect.setChiEngMode oldLangMode])
    else
      let cmd := chineseModeCmd keyEvent charCode
      some (E.handle ctx cmd, [Effect.engine cmd])
  else
    match namedKey keyEvent.keyCode with
    | some cmd => some (E.handle ctx cmd, [Effect.engine cmd])
    | none => none

/-- Candidate reconciliation of `onKeyDown` (lines 287-297). -/
def reconcileCandidates (E : Env σ) (cfg : Config) (s : TextService σ) (ctx : σ)
    (session : EditSession) : Option (TextService σ) :=
  if hasCandidates E ctx then
    if !showingCandidates s then showCandidates E cfg s session
    else updateCandidates E cfg s session
  else
    if showingCandidates s then hideCandidates s
    else some s

/-- Commit reconciliation of `onKeyDown` (lines 299-314). -/
def reconcileCommit (E : Env σ) (s : TextService σ) (ctx : σ) : TextService σ :=
  if E.commit_Check ctx then
    let s1 := if !isComposing s then startComposition s else s
    let s2 := setCompositionString s1 (E.utf8ToUtf16 (E.commit_String ctx))
    if isComposing s2 then endComposition s2 else s2
  else s

/-- `std::wstring::insert(pos, str)`: fails (throws `std::out_of_range`) when
`pos`, converted to an unsigned size, exceeds the length. -/
def wstringInsert (s : WStr) (pos : Int) (str : WStr) : Option WStr :=
  if 0 ≤ pos ∧ pos ≤ (s.length : Int) then
    some (s.take pos.toNat ++ str ++ s.drop pos.toNat)
  else none

/-- The confirmed buffer text appended to `compositionBuf` (lines 316-327). -/
def bufferText (E : Env σ) (ctx : σ) : WStr :=
  if E.buffer_Check ctx then
    match E.buffer_String ctx with
    | some buf => E.utf8ToUtf16 buf
    | none => []
  else []

/-- The pending phonetic symbols that get inserted (lines 329-335); `none` when
the engine reports none. -/
def pendingSymbols (E : Env σ) (ctx : σ) : Option WStr :=
  if !E.zuin_Check ctx then
    match E.zuin_String ctx with
    | some buf => some (E.utf8ToUtf16 buf)
    | none => none
  else none

/-- The string `compositionBuf` built by `onKeyDown` (lines 316-342). -/
def compositionBuf (E : Env σ) (ctx : σ) : Option WStr :=
  let compositionBuf := bufferText E ctx
  match pendingSymbols E ctx with
  | some wbuf => wstringInsert compositionBuf (E.cursor_Current ctx) wbuf
  | none => some compositionBuf

/-- Buffer reconciliation of `onKeyDown` (lines 344-357). -/
def reconcileBuffer (s : TextService σ) (compositionBuf : WStr) : TextService σ :=
  if !compositionBuf.isEmpty then
    let s1 := if !isComposing s then startComposition s else s
    setCompositionString s1 compositionBuf
  else
    if isComposing s then endComposition (setCompositionString s compositionBuf)
    else s

/-- Cursor reconciliation of `onKeyDown` (lines 359-362). -/
def reconcileCursor (E : Env σ) (s : TextService σ) (ctx : σ) : TextService σ :=
  if isComposing s then setCompositionCursor s (E.cursor_Current ctx) else s

/-- Auxiliary message of `onKeyDown` (lines 364-374). -/
def reconcileAux (E : Env σ) (s : TextService σ) (ctx : σ) (session : EditSession) :
    Option (TextService σ) :=
  if E.aux_Check ctx then showMessage s session (E.utf8ToUtf16 (E.aux_String ctx)) 2
  else some s

/-- Lines 287-375 of `onKeyDown`: the reconciliation of the engine's output
after a key that was not ignored. -/
def reconcile (E : Env σ) (cfg : Config) (s : TextService σ) (ctx : σ) (session : EditSession) :
    Option (TextService σ) :=
  (reconcileCandidates E cfg s ctx session).bind fun s2 =>
    let s3 := reconcileCommit E s2 ctx
    (compositionBuf E ctx).bind fun buf =>
      let s4 := reconcileBuffer s3 buf
      let s5 := reconcileCursor E s4 ctx
      reconcileAux E s5 ctx session

/-- The state of `onKeyDown` at line 283: the engine has handled the key (its
state is now `ctx1`, the effects issued are logged) and `updateLangButtons` has
re-read the modes (line 282). -/
def afterKey (E : Env σ) (s : TextService σ) (ctx1 : σ) (effects : List Effect) : TextService σ :=
  updateLangButtons E { s with chewingContext_ := some ctx1, log := s.log ++ effects }

/-- `TextService::onKeyDown` (lines 184-376). -/
def onKeyDown (E : Env σ) (cfg : Config) (s : TextService σ) (keyEvent : KeyEvent)
    (session : EditSession) : Option (TextService σ × Bool) :=
  match s.chewingContext_ with
  | none => none
  | some ctx =>
    match handleKey E cfg s.langMode_ ctx keyEvent with
    | none => some (s, false)
    | some (ctx1, effects) =>
      let s1 := afterKey E s ctx1 effects
      if E.keystroke_CheckIgnore ctx1 then some (s1, false)
      else (reconcile E cfg s1 ctx1 session).map fun s6 => (s6, true)

/-! ## Engine context and configuration -/

/-- The array `selKeys` built by `applyConfig` (lines 579-581): the first ten
`wchar_t` of the configured row of `Config::selKeys` (a table defined outside
this source file), each converted to `int`. -/
def installedSelKeys (row : List Nat) : List Int :=
  (List.range 10).map fun i => (((row.getD i 0) % 65536 : Nat) : Int)

/-- `TextService::applyConfig` (lines 550-584). -/
def applyConfig (E : Env σ) (cfg : Config) (s : TextService σ) : TextService σ :=
  match s.chewingContext_ with
  | some ctx =>
    let c1 := E.set ctx (EngineSetting.addPhraseDirection cfg.addPhraseForward)
    let c2 := E.set c1 (EngineSetting.autoShiftCur cfg.advanceAfterSelection)
    let c3 := E.set c2 (EngineSetting.candPerPage cfg.candPerPage)
    let c4 := E.set c3 (EngineSetting.escCleanAllBuf cfg.escCleanAllBuf)
    let c5 := E.set c4 (EngineSetting.KBType cfg.keyboardLayout)
    let c6 := E.set c5 (EngineSetting.spaceAsSelection cfg.showCandWithSpaceKey)
    let c7 := E.set c6 (EngineSetting.selKey (installedSelKeys cfg.selKeyRow))
    { s with chewingContext_ := some c7 }
  | none => s

/-- `TextService::initChewingContext` (lines 530-541). -/
def initChewingContext (E : Env σ) (cfg : Config) (s : TextService σ) : TextService σ :=
  let s1 :=
    match s.chewingContext_ with
    | none =>
      let c0 := E.set E.chewing_new (EngineSetting.maxChiSymbolLen 50)
      let c1 := if cfg.defaultEnglish then E.set_ChiEngMode c0 SYMBOL_MODE else c0
      let c2 := if cfg.defaultFullSpace then E.set_ShapeMode c1 FULLSHAPE_MODE else c1
      { s with chewingContext_ := some c2 }
    | some _ => s
  applyConfig E cfg s1

/-- `TextService::freeChewingContext` (lines 543-548). -/
def freeChewingContext (s : TextService σ) : TextService σ :=
  match s.chewingContext_ with
  | some _ => { s with chewingContext_ := none }
  | none => s

/-- `TextService::onActivate` (lines 119-125); the configuration in force after
the reload is the argument `cfg`. -/
def onActivate (E : Env σ) (cfg : Config) (s : TextService σ) : TextService σ :=
  updateLangButtons E (initChewingContext E cfg s)

/-- `TextService::onDeactivate` (lines 128-138). -/
def onDeactivate (s : TextService σ) : Option (TextService σ) :=
  let s1 := freeChewingContext { s with lastKeyDownCode_ := 0 }
  (hideMessage s1).map fun s2 =>
    match s2.candidateWindow_ with
    | some _ => { s2 with candidateWindow_ := none }
    | none => s2

/-! ## Mode Toggle Controller -/

/-- The logical negation `!m` of an `int` flag. -/
def intNot (m : Int) : Int := if m = 0 then 1 else 0

/-- `TextService::toggleLanguageMode` (lines 587-593). -/
def toggleLanguageMode (E : Env σ) (s : TextService σ) : TextService σ :=
  match s.chewingContext_ with
  | some ctx =>
    let mode := intNot (E.get_ChiEngMode ctx)
    updateLangButtons E
      { s with chewingContext_ := some (E.set_ChiEngMode ctx mode)
               log := s.log ++ [Effect.setChiEngMode mode] }
  | none => s

/-- `TextService::toggleShapeMode` (lines 596-602). -/
def toggleShapeMode (E : Env σ) (s : TextService σ) : TextService σ :=
  match s.chewingContext_ with
  | some ctx =>
    let mode := intNot (E.get_ShapeMode ctx)
    updateLangButtons E
      { s with chewingContext_ := some (E.set_ShapeMode ctx mode)
               log := s.log ++ [Effect.setShapeMode mode] }
  | none => s

/-- `TextService::filterKeyUp` (lines 379-388). -/
def filterKeyUp (E : Env σ) (s : TextService σ) (keyEvent : KeyEvent) : TextService σ × Bool :=
  let s1 :=
    if s.lastKeyDownCode_ = VK_SHIFT ∧ keyEvent.keyCode = VK_SHIFT then toggleLanguageMode E s
    else s
  ({ s1 with lastKeyDownCode_ := 0 }, false)

/-- The preserved key chords registered by the constructor (lines 73-76). -/
inductive PreservedKey where
  | shiftSpace
  | ctrlSpace
  | other
  deriving DecidableEq, Repr

/-- `TextService::onPreservedKey` (lines 396-424).  `hasContext` tells whether
the host has a current document context for ending the composition. -/
def onPreservedKey (E : Env σ) (cfg : Config) (s : TextService σ) (guid : PreservedKey)
    (hasContext : Bool) : TextService σ × Bool :=
  let s0 := { s with lastKeyDownCode_ := 0 }
  match guid with
  | PreservedKey.shiftSpace => (toggleShapeMode E s0, true)
  | PreservedKey.ctrlSpace =>
    let isOpen := !s0.keyboardOpen
    let s1 :=
      if isOpen then initChewingContext E cfg s0
      else
        let s2 := if isComposing s0 && hasContext then endComposition s0 else s0
        freeChewingContext s2
    ({ s1 with keyboardOpen := isOpen }, false)
  | PreservedKey.other => (s0, false)

/-- Whether an effect is one sent to the host document. -/
def Effect.isHost : Effect → Bool
  | Effect.startComposition => true
  | Effect.setCompositionString _ => true
  | Effect.endComposition => true
  | Effect.setCompositionCursor _ => true
  | _ => false

/-- The host-document effects among the effects logged since a log of length
`n`. -/
def hostEffectsSince (n : Nat) (log : List Effect) : List Effect :=
  (log.drop n).filter Effect.isHost

/-- The host-document effects of lines 299-362 of `onKeyDown`, written out as a
function of the composition `comp` found at line 299 and of the engine state:
used to state what `reconcile` logs. -/
def hostTrace (E : Env σ) (ctx : σ) (comp : Option Composition) (buf : WStr) : List Effect :=
  (if E.commit_Check ctx then
      (if comp.isSome then [] else [Effect.startComposition])
        ++ [Effect.setCompositionString (E.utf8ToUtf16 (E.commit_String ctx)),
            Effect.endComposition]
    else [])
  ++ (if buf = [] then
        (if (comp.isSome && !E.commit_Check ctx) then
          [Effect.setCompositionString buf, Effect.endComposition]
        else [])
      else
        (if (comp.isSome && !E.commit_Check ctx) then [] else [Effect.startComposition])
          ++ [Effect.setCompositionString buf, Effect.setCompositionCursor (E.cursor_Current ctx)])

/-- The conditions under which the assertions on `candidateWindow_` (lines 605
and 655) and the access to the message window in `hideMessage` (line 688)
succeed: a shown candidate list has its window, an armed message timer has its
window. -/
def guardsHold (s : TextService σ) : Prop :=
  (s.showingCandidates_ = true → s.candidateWindow_.isSome = true) ∧
  (s.messageTimerId_ ≠ 0 → s.messageWindow_.isSome = true)

/-- Modelled from the spec: the dispatch of a key-down event by the libIME base
class (not in this source file), "Key Router → Composition State Machine":
`onKeyDown` runs only for an event that `filterKeyDown` classified as Consume. -/
def keyDown (E : Env σ) (cfg : Config) (s : TextService σ) (keyEvent : KeyEvent)
    (session : EditSession) : Option (TextService σ × Bool) :=
  (filterKeyDown s keyEvent).bind fun r =>
    if r.2 then onKeyDown E cfg r.1 keyEvent session else some (r.1, false)

/-- A run of key-down events, each with its edit session; the run stops without
result as soon as one event has none. -/
def keyDownRun (E : Env σ) (cfg : Config) :
    TextService σ → List (KeyEvent × EditSession) → Option (TextService σ)
  | s, [] => some s
  | s, ev :: rest => (keyDown E cfg s ev.1 ev.2).bind fun r => keyDownRun E cfg r.1 rest

/-! ## A small engine for evaluating the code on explicit inputs -/

/-- State of the example engine. -/
structure Toy where
  chiEng : Int
  shape : Int
  maxLen : Nat
  perPage : Int
  selKeys : List Int
  buffer : List Nat
  zuin : List Nat
  cursor : Int
  commit : Option (List Nat)
  cands : List (List Nat)
  aux : Option (List Nat)
  ignore : Bool
  deriving DecidableEq, Repr

/-- The example engine after `chewing_new`. -/
def Toy.fresh : Toy :=
  { chiEng := CHINESE_MODE, shape := HALFSHAPE_MODE, maxLen := 2, perPage := 10
    selKeys := [0x31, 0x32, 0x33, 0x34, 0x35, 0x36, 0x37, 0x38, 0x39, 0x30]
    buffer := [], zuin := [], cursor := 0, commit := none, cands := [], aux := none
    ignore := false }

/-- Key commands of the example engine.  A letter joins the pending symbols in
Chinese mode and is committed at once in symbol mode; Space converts the pending
symbols into one character of the buffer (committing the oldest character when
the buffer is full) or, without pending symbols, opens three candidates; Enter
commits the buffer; any key it has no use for is reported as ignored. -/
def Toy.handle (t : Toy) (cmd : EngineCmd) : Toy :=
  let t0 := { t with commit := none, aux := none, ignore := false }
  match cmd with
  | EngineCmd.Default c =>
    if t0.chiEng = SYMBOL_MODE then { t0 with commit := some [c] }
    else { t0 with zuin := t0.zuin ++ [c] }
  | EngineCmd.Space =>
    if t0.zuin ≠ [] then
      let b := t0.buffer.take t0.cursor.toNat ++ [0x4E2D] ++ t0.buffer.drop t0.cursor.toNat
      if b.length > t0.maxLen then
        { t0 with buffer := b.drop 1, zuin := [], commit := some (b.take 1) }
      else { t0 with buffer := b, zuin := [], cursor := t0.cursor + 1 }
    else if t0.buffer = [] then { t0 with ignore := true }
    else { t0 with cands := [[0x41], [0x42], [0x43]] }
  | EngineCmd.Enter =>
    if t0.buffer = [] then { t0 with ignore := true }
    else { t0 with commit := some t0.buffer, buffer := [], cursor := 0, cands := [] }
  | EngineCmd.Esc =>
    if t0.zuin = [] ∧ t0.cands = [] then { t0 with ignore := true }
    else { t0 with zuin := [], cands := [] }
  | EngineCmd.Tab => { t0 with aux := some [0x3F] }
  | _ => { t0 with ignore := true }

/-- Configuration mutators of the example engine; it keeps its own buffer
capacity of two characters. -/
def Toy.set (t : Toy) (x : EngineSetting) : Toy :=
  match x with
  | EngineSetting.candPerPage n => { t with perPage := n }
  | EngineSetting.selKey keys => { t with selKeys := keys }
  | _ => t

/-- The example engine; its strings are already sequences of wide characters. -/
def toyEnv : Env Toy :=
  { chewing_new := Toy.fresh
    handle := Toy.handle
    set := Toy.set
    get_ChiEngMode := fun t => t.chiEng
    set_ChiEngMode := fun t m => if m = CHINESE_MODE ∨ m = SYMBOL_MODE then { t with chiEng := m } else t
    get_ShapeMode := fun t => t.shape
    set_ShapeMode := fun t m => if m = FULLSHAPE_MODE ∨ m = HALFSHAPE_MODE then { t with shape := m } else t
    keystroke_CheckIgnore := fun t => t.ignore
    candidatesReady := fun t => !t.cands.isEmpty
    cand_ChoicePerPage := fun t => t.perPage
    cand_Enumerate := fun t => t.cands
    get_selKey := fun t => t.selKeys
    commit_Check := fun t => t.commit.isSome
    commit_String := fun t => t.commit.getD []
    buffer_Check := fun t => !t.buffer.isEmpty
    buffer_String := fun t => some t.buffer
    zuin_Check := fun t => t.zuin.isEmpty
    zuin_String := fun t => some t.zuin
    cursor_Current := fun t => t.cursor
    aux_Check := fun t => t.aux.isSome
    aux_String := fun t => t.aux.getD []
    utf8ToUtf16 := fun str => str }

/-- An example configuration. -/
def toyConfig : Config :=
  { enableCapsLock := true, fullShapeSymbols := true, defaultEnglish := false
    defaultFullSpace := false, candPerRow := 3, candPerPage := 10, addPhraseForward := true
    advanceAfterSelection := true, escCleanAllBuf := false, keyboardLayout := 0
    showCandWithSpaceKey := false
    selKeyRow := [0x31, 0x32, 0x33, 0x34, 0x35, 0x36, 0x37, 0x38, 0x39, 0x30] }

/-- The state `Idle` after activation: a context is open, language mode
Phonetic, shape mode Half, nothing composed or shown. -/
def toyIdle : TextService Toy := onActivate toyEnv toyConfig TextService.new

/-- The idle state with the engine switched to Alphabetic mode. -/
def toyIdleEnglish : TextService Toy := toggleLanguageMode toyEnv toyIdle

/-- A key event without modifiers or toggles. -/
def plainKey (keyCode charCode : Nat) : KeyEvent :=
  { keyCode := keyCode, charCode := charCode, isChar := decide (charCode ≠ 0)
    isKeyDown := fun _ => false, isKeyToggled := fun _ => false }

/-- The key `a`. -/
def keyA : KeyEvent := plainKey 0x41 0x61
/-- The space key. -/
def keySpace : KeyEvent := plainKey VK_SPACE 0x20
/-- The Enter key. -/
def keyEnter : KeyEvent := plainKey VK_RETURN 0
/-- The function key F5, a key outside the named-key table. -/
def keyF5 : KeyEvent := plainKey 0x74 0
/-- The key `a` pressed while Shift is held. -/
def keyShiftA : KeyEvent :=
  { keyCode := 0x41, charCode := 0x41, isChar := true
    isKeyDown := fun k => decide (k = VK_SHIFT), isKeyToggled := fun _ => false }

/-- An engine state with three pending candidates, three per page, and the
selection keys `1`, `2`, `3`. -/
def toyThree : Toy :=
  { Toy.fresh with selKeys := [0x31, 0x32, 0x33], perPage := 3
                   cands := [[0x41], [0x42], [0x43]] }

/-- A configuration in which Shift does not enter full-shape symbols. -/
def toyConfigShift : Config := { toyConfig with fullShapeSymbols := false }

/-- An edit session whose selection rectangle is known. -/
def toySession : EditSession := { selectionRect := some (10, 20) }

/-- The state after `A` typed with Shift held in the idle state, Shift not
entering full-shape symbols. -/
def toyShiftA : TextService Toy :=
  ((onKeyDown toyEnv toyConfigShift toyIdle keyShiftA toySession).map Prod.fst).getD toyIdle

/-- Five printable keys: two syllables converted by Space and the first symbol
of a third one. -/
def toyEvents5 : List (KeyEvent × EditSession) :=
  [(keyA, toySession), (keySpace, toySession), (keyA, toySession), (keySpace, toySession),
   (keyA, toySession)]

/-- The state reached from `toyIdle` by `toyEvents5`: the buffer of the example
engine is full (two characters) and one symbol is pending. -/
def toyAfter5 : TextService Toy := (keyDownRun toyEnv toyConfig toyIdle toyEvents5).getD toyIdle

/-- The state after a further Space: the engine commits its oldest character
and keeps two characters in the buffer. -/
def toyAfter6 : TextService Toy :=
  ((keyDown toyEnv toyConfig toyAfter5 keySpace toySession).map Prod.fst).getD toyIdle

/-- The state reached from `toyIdle` by one syllable converted by Space: one
character in the buffer, nothing pending. -/
def toyAfter2 : TextService Toy :=
  (keyDownRun toyEnv toyConfig toyIdle [(keyA, toySession), (keySpace, toySession)]).getD toyIdle

/-- The state after Enter in `toyAfter2`: the buffer has been committed. -/
def toyCommitted : TextService Toy :=
  ((keyDown toyEnv toyConfig toyAfter2 keyEnter toySession).map Prod.fst).getD toyIdle

/-- The state after Space in `toyAfter2`: the engine offers three candidates. -/
def toyCandidates : TextService Toy :=
  ((keyDown toyEnv toyConfig toyAfter2 keySpace toySession).map Prod.fst).getD toyIdle

/-! ## Sequences of message operations -/

/-- The operations on the transient message: `showMessage`, `hideMessage` and
the expiry of the timer (`onMessageTimeout`). -/
inductive MessageOp where
  | showMessage (session : EditSession) (message : WStr) (duration : Int)
  | hideMessage
  | onMessageTimeout

/-- One message operation. -/
def messageStep (s : TextService σ) : MessageOp → Option (TextService σ)
  | MessageOp.showMessage session message duration => showMessage s session message duration
  | MessageOp.hideMessage => hideMessage s
  | MessageOp.onMessageTimeout => onMessageTimeout s

/-- A sequence of message operations; it has no result as soon as one operation
has none. -/
def messageRun : TextService σ → List MessageOp → Option (TextService σ)
  | s, [] => some s
  | s, op :: rest => (messageStep s op).bind fun s1 => messageRun s1 rest

/-- The states passed through by a sequence of message operations, the start
state first. -/
def messageStates : TextService σ → List MessageOp → List (TextService σ)
  | s, [] => [s]
  | s, op :: rest =>
    match messageStep s op with
    | some s1 => s :: messageStates s1 rest
    | none => [s]

/-- The message windows that exist in a state: the object reaches its message
window only through `messageWindow_`. -/
def messageWindows (s : TextService σ) : List MessageWindow := s.messageWindow_.toList

/-- The condition on the message state that holds after construction and is
kept by the message operations: at most one timer is armed; every armed timer
belongs to the existing message window and is the one remembered in
`messageTimerId_`; a remembered timer has its window; and the handle of the
existing window is older than the next fresh handle. -/
def messageInv (s : TextService σ) : Prop :=
  s.timers.length ≤ 1 ∧
  (∀ t ∈ s.timers, ∃ w, s.messageWindow_ = some w ∧ t.hwnd = w.hwnd ∧ t.id = s.messageTimerId_) ∧
  (s.messageTimerId_ ≠ 0 → s.messageWindow_.isSome = true) ∧
  (∀ w, s.messageWindow_ = some w → w.hwnd < s.nextHwnd)

/-- Two messages shown in immediate succession, then the expiry of the timer, an
explicit hide and one more expiry. -/
def toyMessageOps : List MessageOp :=
  [MessageOp.showMessage toySession [0x31] 2, MessageOp.showMessage toySession [0x32] 2,
   MessageOp.onMessageTimeout, MessageOp.hideMessage, MessageOp.onMessageTimeout]

/-- The state after the first message of `toyMessageOps`. -/
def toyMessage1 : TextService Toy := (messageRun toyIdle (toyMessageOps.take 1)).getD toyIdle

/-- The state after the second message of `toyMessageOps`. -/
def toyMessage2 : TextService Toy := (messageRun toyIdle (toyMessageOps.take 2)).getD toyIdle

/-! ## Sequences of input events -/

/-- `TextService::onKeyUp` (lines 391-393). -/
def onKeyUp (s : TextService σ) : TextService σ × Bool := (s, true)

/-- The events of the Shift-tap detection: a key going down (with its edit
session), a key going up, a preserved key chord, and the deactivation of the
text service. -/
inductive InputEvent where
  | keyDown (keyEvent : KeyEvent) (session : EditSession)
  | keyUp (keyEvent : KeyEvent)
  | preservedKey (guid : PreservedKey) (hasContext : Bool)
  | deactivate

/-- Modelled from the spec: the dispatch of a key-up event by the libIME base
class (not in this source file): `onKeyUp` runs only for an event that
`filterKeyUp` classified as Consume. -/
def keyUp (E : Env σ) (s : TextService σ) (keyEvent : KeyEvent) : TextService σ × Bool :=
  let r := filterKeyUp E s keyEvent
  if r.2 then onKeyUp r.1 else r

/-- One input event. -/
def inputStep (E : Env σ) (cfg : Config) (s : TextService σ) :
    InputEvent → Option (TextService σ)
  | InputEvent.keyDown keyEvent session => (keyDown E cfg s keyEvent session).map Prod.fst
  | InputEvent.keyUp keyEvent => some (keyUp E s keyEvent).1
  | InputEvent.preservedKey guid hasContext => some (onPreservedKey E cfg s guid hasContext).1
  | InputEvent.deactivate => onDeactivate s

/-- A sequence of input events; it has no result as soon as one event has
none. -/
def inputRun (E : Env σ) (cfg : Config) :
    TextService σ → List InputEvent → Option (TextService σ)
  | s, [] => some s
  | s, ev :: rest => (inputStep E cfg s ev).bind fun s1 => inputRun E cfg s1 rest

/-- Whether the last event of a sequence is a key-down of the Shift key. -/
def lastIsShiftDown (evs : List InputEvent) : Bool :=
  match evs.getLast? with
  | some (InputEvent.keyDown keyEvent _) => decide (keyEvent.keyCode = VK_SHIFT)
  | _ => false

/-- The Shift key. -/
def keyShift : KeyEvent := plainKey VK_SHIFT 0

/-- The key `a` goes down and up, then Shift goes down. -/
def toyTapEvents : List InputEvent :=
  [InputEvent.keyDown keyA toySession, InputEvent.keyUp keyA,
   InputEvent.keyDown keyShift toySession]

/-- The state reached from `toyIdle` by `toyTapEvents`. -/
def toyShiftDown : TextService Toy := (inputRun toyEnv toyConfig toyIdle toyTapEvents).getD toyIdle

/-- Shift goes down, then `a` goes down and up while Shift is held. -/
def toyChordEvents : List InputEvent :=
  [InputEvent.keyDown keyShift toySession, InputEvent.keyDown keyShiftA toySession,
   InputEvent.keyUp keyShiftA]

/-- The state reached from `toyIdle` by `toyChordEvents`. -/
def toyChordDone : TextService Toy :=
  (inputRun toyEnv toyConfig toyIdle toyChordEvents).getD toyIdle

/-! ## Deactivation while candidates are shown -/

/-- The example engine with a symbol key: the backquote character opens a list
of two candidates at once, whatever the buffer holds. -/
def toyEnvSymbols : Env Toy :=
  { toyEnv with
    handle := fun t cmd =>
      if cmd = EngineCmd.Default 0x60 then
        { t with commit := none, aux := none, ignore := false, cands := [[0x3001], [0x3002]] }
      else Toy.handle t cmd }

/-- The backquote key. -/
def keyBackquote : KeyEvent := plainKey 0xC0 0x60

/-- The idle state after activation with the engine `toyEnvSymbols`. -/
def toySymIdle : TextService Toy := onActivate toyEnvSymbols toyConfig TextService.new

/-- The state after the backquote key in the idle state: the candidate list is
shown. -/
def toyShown : TextService Toy :=
  ((keyDown toyEnvSymbols toyConfig toySymIdle keyBackquote toySession).map Prod.fst).getD
    toySymIdle

/-- The state after `onDeactivate` in `toyShown`. -/
def toyDeactivated : TextService Toy := (onDeactivate toyShown).getD toySymIdle

/-- The state after `onActivate` in `toyDeactivated`. -/
def toyReactivated : TextService Toy := onActivate toyEnvSymbols toyConfig toyDeactivated

/-! ## The Key Router -/

section Router

variable {σ : Type}

theorem filterKeyDown_composing (s : TextService σ) (keyEvent : KeyEvent)
    (hctx : s.chewingContext_.isSome = true) (hc : isComposing s = true) :
    filterKeyDown s keyEvent = some ({ s with lastKeyDownCode_ := keyEvent.keyCode }, true) := by
  cases hs : s.chewingContext_ with
  | none => simp [hs] at hctx
  | some ctx =>
    have hc1 : s.composition_.isSome = true := hc
    simp [filterKeyDown, hs, isComposing, hc1]

theorem filterKeyDown_idle (s : TextService σ) (keyEvent : KeyEvent)
    (hctx : s.chewingContext_.isSome = true) (hc : isComposing s = false) :
    filterKeyDown s keyEvent =
      some ({ s with lastKeyDownCode_ := keyEvent.keyCode },
        decide (s.langMode_ = CHINESE_MODE) && !keyEvent.isKeyToggled VK_CAPITAL
          && !(keyEvent.isKeyToggled VK_NUMLOCK
                && (decide (VK_NUMPAD0 ≤ keyEvent.keyCode) && decide (keyEvent.keyCode ≤ VK_DIVIDE)))
          && !(keyEvent.isKeyDown VK_CONTROL || keyEvent.isKeyDown VK_MENU)
          && (keyEvent.isChar && isgraph keyEvent.charCode)) := by
  cases hs : s.chewingContext_ with
  | none => simp [hs] at hctx
  | some ctx =>
    have hc1 : s.composition_.isSome = false := hc
    simp only [filterKeyDown, hs, isComposing, hc1]
    by_cases h1 : s.langMode_ = CHINESE_MODE
    · cases h2 : keyEvent.isKeyToggled VK_CAPITAL <;>
      cases h3 : keyEvent.isKeyToggled VK_NUMLOCK <;>
      cases h4 : decide (VK_NUMPAD0 ≤ keyEvent.keyCode) <;>
      cases h5 : decide (keyEvent.keyCode ≤ VK_DIVIDE) <;>
      cases h6 : keyEvent.isKeyDown VK_CONTROL <;>
      cases h7 : keyEvent.isKeyDown VK_MENU <;>
      cases h8 : (keyEvent.isChar && isgraph keyEvent.charCode) <;>
      simp_all
    · simp [h1]

/-- C1: with an engine context open (the assertion of `filterKeyDown`), a key
event that arrives while a composition is active is classified Consume whatever
the language mode, toggles and modifiers; while no composition is active it is
classified PassThrough as soon as the cached language mode is not Phonetic, or
Caps Lock is toggled on, or Num Lock is toggled on and the key code lies in
`VK_NUMPAD0..VK_DIVIDE`, or Ctrl or Alt is held down. -/
theorem filterKeyDown_router (s : TextService σ) (keyEvent : KeyEvent)
    (hctx : s.chewingContext_.isSome = true) :
    (isComposing s = true →
      filterKeyDown s keyEvent = some ({ s with lastKeyDownCode_ := keyEvent.keyCode }, true)) ∧
    (isComposing s = false →
      (s.langMode_ ≠ CHINESE_MODE ∨ keyEvent.isKeyToggled VK_CAPITAL = true ∨
        (keyEvent.isKeyToggled VK_NUMLOCK = true ∧
          VK_NUMPAD0 ≤ keyEvent.keyCode ∧ keyEvent.keyCode ≤ VK_DIVIDE) ∨
        keyEvent.isKeyDown VK_CONTROL = true ∨ keyEvent.isKeyDown VK_MENU = true) →
      filterKeyDown s keyEvent =
        some ({ s with lastKeyDownCode_ := keyEvent.keyCode }, false)) := by
  refine ⟨filterKeyDown_composing s keyEvent hctx, ?_⟩
  intro hc h
  rw [filterKeyDown_idle s keyEvent hctx hc]
  congr 2
  rcases h with h | h | ⟨h3, h4, h5⟩ | h | h <;> simp_all

/-- Witness for C1: the key `a` in Alphabetic mode is PassThrough. -/
theorem filterKeyDown_router_witness :
    toyIdleEnglish.chewingContext_.isSome = true ∧
    filterKeyDown toyIdleEnglish keyA =
      some ({ toyIdleEnglish with lastKeyDownCode_ := keyA.keyCode }, false) :=
  ⟨by rfl, (filterKeyDown_router toyIdleEnglish keyA (by rfl)).2 (by rfl) (Or.inl (by decide))⟩

theorem isgraph_iff (c : Nat) : isgraph c = true ↔ (isprint c = true ∧ c ≠ 0x20) := by
  simp only [isgraph, isprint, decide_eq_true_eq]
  omega

/-- C2, as stated, fails: in the idle state with language mode Phonetic, no
toggle and no modifier, the space key maps to a character that `onKeyDown`
treats as printable, yet `filterKeyDown` classifies it PassThrough. -/
theorem filterKeyDown_space_passThrough :
    (toyIdle.chewingContext_.isSome = true ∧ isComposing toyIdle = false ∧
      toyIdle.langMode_ = CHINESE_MODE ∧ keySpace.isKeyToggled VK_CAPITAL = false ∧
      keySpace.isKeyDown VK_CONTROL = false ∧ keySpace.isKeyDown VK_MENU = false ∧
      keySpace.isKeyToggled VK_NUMLOCK = false) ∧
    printableKey keySpace = true ∧
    (filterKeyDown toyIdle keySpace).map Prod.snd = some false ∧
    ¬ ((filterKeyDown toyIdle keySpace).map Prod.snd = some true ↔ printableKey keySpace = true) := by
  refine ⟨⟨by rfl, by rfl, by rfl, by rfl, by rfl, by rfl, by rfl⟩, by rfl, by rfl, ?_⟩
  intro h
  have h1 : (filterKeyDown toyIdle keySpace).map Prod.snd = some false := by rfl
  have h2 := h.2 (by rfl)
  rw [h1] at h2
  exact absurd h2 (by decide)

/-- C2 amended: while no composition is active, with language mode Phonetic,
Caps Lock off, Ctrl and Alt up, and not (Num Lock on with a keypad-range key),
`filterKeyDown` returns Consume if and only if the key maps to a character that
is graphic, that is printable in the sense of `onKeyDown` and not the space
character. -/
theorem filterKeyDown_graphic (s : TextService σ) (keyEvent : KeyEvent)
    (hctx : s.chewingContext_.isSome = true) (hc : isComposing s = false)
    (hl : s.langMode_ = CHINESE_MODE) (hcaps : keyEvent.isKeyToggled VK_CAPITAL = false)
    (hctrl : keyEvent.isKeyDown VK_CONTROL = false) (halt : keyEvent.isKeyDown VK_MENU = false)
    (hnum : ¬ (keyEvent.isKeyToggled VK_NUMLOCK = true ∧
      VK_NUMPAD0 ≤ keyEvent.keyCode ∧ keyEvent.keyCode ≤ VK_DIVIDE)) :
    ∃ r, filterKeyDown s keyEvent = some ({ s with lastKeyDownCode_ := keyEvent.keyCode }, r) ∧
      (r = true ↔ (keyEvent.isChar = true ∧ isprint keyEvent.charCode = true ∧
        keyEvent.charCode ≠ 0x20)) := by
  refine ⟨_, filterKeyDown_idle s keyEvent hctx hc, ?_⟩
  have hg := isgraph_iff keyEvent.charCode
  have hn : (keyEvent.isKeyToggled VK_NUMLOCK
      && (decide (VK_NUMPAD0 ≤ keyEvent.keyCode) && decide (keyEvent.keyCode ≤ VK_DIVIDE))) = false := by
    cases h3 : keyEvent.isKeyToggled VK_NUMLOCK
    · simp
    · simp only [Bool.true_and, Bool.and_eq_false_iff, decide_eq_false_iff_not]
      by_contra hcon
      exact hnum ⟨h3, by omega, by omega⟩
  rw [hn, hcaps, hctrl, halt]
  simp only [hl, decide_True, Bool.not_false, Bool.and_self, Bool.or_self, Bool.true_and,
    Bool.and_eq_true]
  rw [hg]

/-- Witness for C2 amended: the key `a` in the idle Phonetic state is Consume. -/
theorem filterKeyDown_graphic_witness :
    ∃ r, filterKeyDown toyIdle keyA = some ({ toyIdle with lastKeyDownCode_ := keyA.keyCode }, r) ∧
      (r = true ↔ (keyA.isChar = true ∧ isprint keyA.charCode = true ∧ keyA.charCode ≠ 0x20)) :=
  filterKeyDown_graphic toyIdle keyA (by rfl) (by rfl) (by rfl) (by rfl) (by rfl) (by rfl)
    (by intro h; exact absurd h.1 (by decide))

theorem filterKeyDown_frame (s s1 : TextService σ) (keyEvent : KeyEvent) (r : Bool)
    (h : filterKeyDown s keyEvent = some (s1, r)) :
    s1 = { s with lastKeyDownCode_ := keyEvent.keyCode } := by
  cases hs : s.chewingContext_ with
  | none => simp [filterKeyDown, hs] at h
  | some ctx =>
    simp only [filterKeyDown, hs] at h
    split_ifs at h <;> simp_all

theorem onKeyDown_unknownKey (E : Env σ) (cfg : Config) (s : TextService σ) (keyEvent : KeyEvent)
    (session : EditSession) (hctx : s.chewingContext_.isSome = true)
    (hp : printableKey keyEvent = false) (hk : namedKey keyEvent.keyCode = none) :
    onKeyDown E cfg s keyEvent session = some (s, false) := by
  cases hs : s.chewingContext_ with
  | none => simp [hs] at hctx
  | some ctx => simp [onKeyDown, hs, handleKey, hp, hk]

/-- C3: `filterKeyDown` writes nothing but the remembered last-key-down code;
for an event it classifies PassThrough the key-down dispatch ends there, so no
command reaches the engine (context and effect log are unchanged) and the
composition, the candidate state and the message state are as before; and a
non-printable key outside the named-key table that reaches `onKeyDown` returns
PassThrough with the whole state unchanged. -/
theorem passThrough_frame (E : Env σ) (cfg : Config) (s : TextService σ) (keyEvent : KeyEvent)
    (session : EditSession) :
    (∀ s1 r, filterKeyDown s keyEvent = some (s1, r) →
      s1 = { s with lastKeyDownCode_ := keyEvent.keyCode }) ∧
    (∀ s1, filterKeyDown s keyEvent = some (s1, false) →
      keyDown E cfg s keyEvent session = some (s1, false) ∧
      s1.chewingContext_ = s.chewingContext_ ∧ s1.log = s.log ∧
      s1.composition_ = s.composition_ ∧
      s1.showingCandidates_ = s.showingCandidates_ ∧ s1.candidateWindow_ = s.candidateWindow_ ∧
      s1.messageWindow_ = s.messageWindow_ ∧ s1.messageTimerId_ = s.messageTimerId_ ∧
      s1.timers = s.timers) ∧
    (s.chewingContext_.isSome = true → printableKey keyEvent = false →
      namedKey keyEvent.keyCode = none →
      onKeyDown E cfg s keyEvent session = some (s, false)) := by
  refine ⟨fun s1 r h => filterKeyDown_frame s s1 keyEvent r h, ?_, ?_⟩
  · intro s1 h
    have hf := filterKeyDown_frame s s1 keyEvent false h
    refine ⟨?_, ?_⟩
    · simp [keyDown, h]
    · subst hf
      exact ⟨rfl, rfl, rfl, rfl, rfl, rfl, rfl, rfl⟩
  · intro hctx hp hk
    exact onKeyDown_unknownKey E cfg s keyEvent session hctx hp hk

/-- Witness for C3: the key `a` in Alphabetic mode passes through the dispatch
without any change but the remembered key code, and the key F5 handed to
`onKeyDown` changes nothing. -/
theorem passThrough_frame_witness :
    keyDown toyEnv toyConfig toyIdleEnglish keyA toySession =
        some ({ toyIdleEnglish with lastKeyDownCode_ := keyA.keyCode }, false) ∧
    onKeyDown toyEnv toyConfig toyIdle keyF5 toySession = some (toyIdle, false) :=
  ⟨((passThrough_frame toyEnv toyConfig toyIdleEnglish keyA toySession).2.1 _ (by rfl)).1,
   (passThrough_frame toyEnv toyConfig toyIdle keyF5 toySession).2.2 (by rfl) (by rfl) (by rfl)⟩

end Router

/-! ## The Composition State Machine -/

section StateMachine

variable {σ : Type}

theorem updateLangButtons_eq (E : Env σ) (s : TextService σ) :
    ∃ a b c d, updateLangButtons E s =
      { s with langMode_ := a, langIcon := b, shapeMode_ := c, shapeIcon := d } := by
  rcases s with ⟨sc, lm, sm, lk, mw, mt, cw, cc, co, ko, li, si, tm, nh, lg⟩
  cases cc with
  | none => exact ⟨lm, li, sm, si, rfl⟩
  | some ctx =>
    simp only [updateLangButtons]
    split_ifs <;> exact ⟨_, _, _, _, rfl⟩

theorem hideMessage_eq (s s1 : TextService σ) (h : hideMessage s = some s1) :
    ∃ t, s1 = { s with messageWindow_ := none, messageTimerId_ := 0, timers := t } := by
  rcases s with ⟨sc, lm, sm, lk, mw, mt, cw, cc, co, ko, li, si, tm, nh, lg⟩
  by_cases ht : mt = 0
  · cases mw with
    | none =>
      simp [hideMessage, ht] at h
      exact ⟨tm, by subst h; subst ht; rfl⟩
    | some w =>
      simp [hideMessage, ht] at h
      exact ⟨_, by subst h; subst ht; rfl⟩
  · cases mw with
    | none => simp [hideMessage, ht] at h
    | some w =>
      simp [hideMessage, ht] at h
      exact ⟨_, by subst h; rfl⟩

theorem showMessage_eq (s s1 : TextService σ) (session : EditSession) (m : WStr) (d : Int)
    (h : showMessage s session m d = some s1) :
    ∃ w n t, s1 = { s with messageWindow_ := some w, nextHwnd := n, timers := t,
                           messageTimerId_ := 1 } := by
  unfold showMessage at h
  cases hh : hideMessage s with
  | none => simp [hh] at h
  | some s0 =>
    obtain ⟨t, ht⟩ := hideMessage_eq s s0 hh
    simp only [hh, Option.map_some', Option.some.injEq] at h
    subst h
    subst ht
    exact ⟨_, _, _, rfl⟩

theorem updateCandidates_eq (E : Env σ) (cfg : Config) (s s1 : TextService σ)
    (session : EditSession) (h : updateCandidates E cfg s session = some s1) :
    ∃ w0 ctx p, s.candidateWindow_ = some w0 ∧ s.chewingContext_ = some ctx ∧
      s1 = { s with candidateWindow_ := some (CandidateWindow.mk (candidatePage E ctx [])
                      cfg.candPerRow p w0.visible) } := by
  rcases s with ⟨sc, lm, sm, lk, mw, mt, cw, cc, co, ko, li, si, tm, nh, lg⟩
  cases cw with
  | none => simp [updateCandidates] at h
  | some w0 =>
    cases cc with
    | none => simp [updateCandidates] at h
    | some ctx =>
      simp only [updateCandidates, Option.some.injEq] at h
      subst h
      cases hr : session.selectionRect with
      | none => exact ⟨w0, ctx, w0.pos, rfl, rfl, rfl⟩
      | some rc => exact ⟨w0, ctx, some rc, rfl, rfl, rfl⟩

theorem showCandidates_eq (E : Env σ) (cfg : Config) (s s1 : TextService σ)
    (session : EditSession) (h : showCandidates E cfg s session = some s1) :
    ∃ ctx p, s.chewingContext_ = some ctx ∧
      s1 = { s with candidateWindow_ := some (CandidateWindow.mk (candidatePage E ctx [])
                      cfg.candPerRow p true)
                    showingCandidates_ := true } := by
  unfold showCandidates at h
  simp only [Option.map_eq_some'] at h
  obtain ⟨s2, hu, hs1⟩ := h
  obtain ⟨w0, ctx, p, hw, hc, hs2⟩ := updateCandidates_eq E cfg _ s2 session hu
  subst hs1
  subst hs2
  refine ⟨ctx, p, ?_, ?_⟩
  · cases hcw : s.candidateWindow_ <;> simp [hcw] at hc <;> exact hc
  · cases hcw : s.candidateWindow_ <;> simp

theorem hideCandidates_eq (s s1 : TextService σ) (h : hideCandidates s = some s1) :
    s.candidateWindow_.isSome = true ∧
      s1 = { s with candidateWindow_ := none, showingCandidates_ := false } := by
  unfold hideCandidates at h
  cases hcw : s.candidateWindow_ with
  | none => simp [hcw] at h
  | some w => simp [hcw] at h; exact ⟨rfl, h.symm⟩

/-- What candidate reconciliation does to the state. -/
theorem reconcileCandidates_eq (E : Env σ) (cfg : Config) (s s1 : TextService σ) (ctx : σ)
    (session : EditSession) (hctx : s.chewingContext_ = some ctx)
    (h : reconcileCandidates E cfg s ctx session = some s1) :
    ∃ cw, s1 = { s with candidateWindow_ := cw, showingCandidates_ := hasCandidates E ctx } ∧
      (hasCandidates E ctx = true → ∃ w, cw = some w ∧ w.items = candidatePage E ctx [] ∧
        (s.showingCandidates_ = false → w.visible = true) ∧
        (s.showingCandidates_ = true →
          ∃ w0, s.candidateWindow_ = some w0 ∧ w.visible = w0.visible)) ∧
      (hasCandidates E ctx = false → s.showingCandidates_ = true →
        s.candidateWindow_.isSome = true ∧ cw = none) ∧
      (hasCandidates E ctx = false → s.showingCandidates_ = false → cw = s.candidateWindow_) := by
  unfold reconcileCandidates at h
  cases hh : hasCandidates E ctx <;> cases hsh : s.showingCandidates_ <;>
    simp only [hh, hsh, showingCandidates, Bool.not_true, Bool.not_false, if_true, if_false,
      Bool.false_eq_true] at h
  · simp only [Option.some.injEq] at h
    subst h
    refine ⟨s.candidateWindow_, ?_, by simp, by simp, by simp⟩
    rcases s with ⟨sc, lm, sm, lk, mw, mt, cw, cc, co, ko, li, si, tm, nh, lg⟩
    simp at hsh
    subst hsh
    rfl
  · obtain ⟨hw, hs1⟩ := hideCandidates_eq s s1 h
    exact ⟨none, hs1, by simp, by simp [hw], by simp⟩
  · obtain ⟨ctx1, p, hc, hs1⟩ := showCandidates_eq E cfg s s1 session h
    rw [hctx] at hc
    cases hc
    exact ⟨_, hs1, fun _ => ⟨_, rfl, rfl, by simp, by simp⟩, by simp, by simp⟩
  · obtain ⟨w0, ctx1, p, hw, hc, hs1⟩ := updateCandidates_eq E cfg s s1 session h
    rw [hctx] at hc
    cases hc
    refine ⟨some (CandidateWindow.mk (candidatePage E ctx []) cfg.candPerRow p w0.visible), ?_,
      fun _ => ⟨_, rfl, rfl, by simp, fun _ => ⟨w0, hw, rfl⟩⟩, by simp, by simp⟩
    subst hs1
    rcases s with ⟨sc, lm, sm, lk, mw, mt, cw, cc, co, ko, li, si, tm, nh, lg⟩
    simp at hsh
    subst hsh
    rfl

theorem reconcileCommit_eq (E : Env σ) (s : TextService σ) (ctx : σ) :
    reconcileCommit E s ctx =
      { s with composition_ := if E.commit_Check ctx then none else s.composition_
               log := s.log ++
                 (if E.commit_Check ctx then
                    (if s.composition_.isSome then [] else [Effect.startComposition])
                      ++ [Effect.setCompositionString (E.utf8ToUtf16 (E.commit_String ctx)),
                          Effect.endComposition]
                  else []) } := by
  rcases s with ⟨sc, lm, sm, lk, mw, mt, cw, cc, co, ko, li, si, tm, nh, lg⟩
  cases hc : E.commit_Check ctx <;> cases co <;>
    simp [reconcileCommit, hc, isComposing, startComposition, setCompositionString, endComposition]

theorem reconcileBuffer_eq (s : TextService σ) (buf : WStr) :
    reconcileBuffer s buf =
      { s with composition_ :=
                 if buf = [] then none
                 else some { text := buf, cursor := (s.composition_.map (fun c => c.cursor)).getD 0 }
               log := s.log ++
                 (if buf = [] then
                    (if s.composition_.isSome then
                      [Effect.setCompositionString buf, Effect.endComposition]
                     else [])
                  else
                    (if s.composition_.isSome then [] else [Effect.startComposition])
                      ++ [Effect.setCompositionString buf]) } := by
  rcases s with ⟨sc, lm, sm, lk, mw, mt, cw, cc, co, ko, li, si, tm, nh, lg⟩
  cases buf <;> cases co <;>
    simp [reconcileBuffer, isComposing, startComposition, setCompositionString, endComposition]

theorem reconcileCursor_eq (E : Env σ) (s : TextService σ) (ctx : σ) :
    reconcileCursor E s ctx =
      { s with composition_ := s.composition_.map (fun c => { c with cursor := E.cursor_Current ctx })
               log := s.log ++
                 (if s.composition_.isSome then [Effect.setCompositionCursor (E.cursor_Current ctx)]
                  else []) } := by
  rcases s with ⟨sc, lm, sm, lk, mw, mt, cw, cc, co, ko, li, si, tm, nh, lg⟩
  cases co <;> simp [reconcileCursor, isComposing, setCompositionCursor]


theorem reconcileAux_eq (E : Env σ) (s s1 : TextService σ) (ctx : σ) (session : EditSession)
    (h : reconcileAux E s ctx session = some s1) :
    ∃ mw mt nh tm, s1 = { s with messageWindow_ := mw, messageTimerId_ := mt, nextHwnd := nh,
                                 timers := tm } := by
  unfold reconcileAux at h
  split_ifs at h
  · obtain ⟨w, n, t, hs1⟩ := showMessage_eq s s1 session _ _ h
    exact ⟨some w, 1, n, t, hs1⟩
  · simp only [Option.some.injEq] at h
    subst h
    exact ⟨s.messageWindow_, s.messageTimerId_, s.nextHwnd, s.timers, rfl⟩

/-- What lines 287-375 of `onKeyDown` do to the state. -/
theorem reconcile_eq (E : Env σ) (cfg : Config) (s s1 : TextService σ) (ctx : σ)
    (session : EditSession) (h : reconcile E cfg s ctx session = some s1) :
    ∃ buf s2 mw mt nh tm, compositionBuf E ctx = some buf ∧
      reconcileCandidates E cfg s ctx session = some s2 ∧
      s1 = { s2 with composition_ :=
                       if buf = [] then none
                       else some { text := buf, cursor := E.cursor_Current ctx }
                     log := s2.log ++ hostTrace E ctx s2.composition_ buf
                     messageWindow_ := mw, messageTimerId_ := mt, nextHwnd := nh
                     timers := tm } := by
  unfold reconcile at h
  simp only [Option.bind_eq_some] at h
  obtain ⟨s2, hc, buf, hb, ha⟩ := h
  obtain ⟨mw, mt, nh, tm, hs1⟩ := reconcileAux_eq E _ s1 ctx session ha
  refine ⟨buf, s2, mw, mt, nh, tm, hb, hc, ?_⟩
  rw [hs1, reconcileCursor_eq, reconcileBuffer_eq, reconcileCommit_eq]
  rcases s2 with ⟨sc, lm, sm, lk, mw0, mt0, cw, cc, co, ko, li, si, tm0, nh0, lg⟩
  cases hcc : E.commit_Check ctx <;> cases co <;> cases buf <;> simp [hostTrace, hcc]

theorem afterKey_eq (E : Env σ) (s : TextService σ) (ctx1 : σ) (eff : List Effect) :
    ∃ a b c d, afterKey E s ctx1 eff =
      { s with chewingContext_ := some ctx1, log := s.log ++ eff
               langMode_ := a, langIcon := b, shapeMode_ := c, shapeIcon := d } := by
  obtain ⟨a, b, c, d, h⟩ := updateLangButtons_eq E
    { s with chewingContext_ := some ctx1, log := s.log ++ eff }
  exact ⟨a, b, c, d, by rw [afterKey, h]⟩

/-- The exit paths of `onKeyDown`: the `default` case of the switch, the ignore
return of line 285, and the return of line 375. -/
theorem onKeyDown_result (E : Env σ) (cfg : Config) (s s1 : TextService σ) (keyEvent : KeyEvent)
    (session : EditSession) (r : Bool) (h : onKeyDown E cfg s keyEvent session = some (s1, r)) :
    ∃ ctx, s.chewingContext_ = some ctx ∧
      ((handleKey E cfg s.langMode_ ctx keyEvent = none ∧ s1 = s ∧ r = false) ∨
       (∃ ctx1 eff, handleKey E cfg s.langMode_ ctx keyEvent = some (ctx1, eff) ∧
          ((E.keystroke_CheckIgnore ctx1 = true ∧ s1 = afterKey E s ctx1 eff ∧ r = false) ∨
           (E.keystroke_CheckIgnore ctx1 = false ∧
              reconcile E cfg (afterKey E s ctx1 eff) ctx1 session = some s1 ∧ r = true)))) := by
  unfold onKeyDown at h
  cases hs : s.chewingContext_ with
  | none => simp [hs] at h
  | some ctx =>
    refine ⟨ctx, rfl, ?_⟩
    simp only [hs] at h
    cases hk : handleKey E cfg s.langMode_ ctx keyEvent with
    | none =>
      simp only [hk, Option.some.injEq, Prod.mk.injEq] at h
      exact Or.inl ⟨rfl, h.1.symm, h.2.symm⟩
    | some p =>
      obtain ⟨ctx1, eff⟩ := p
      refine Or.inr ⟨ctx1, eff, rfl, ?_⟩
      simp only [hk] at h
      cases hi : E.keystroke_CheckIgnore ctx1 with
      | true =>
        simp only [hi, if_true, Option.some.injEq, Prod.mk.injEq] at h
        exact Or.inl ⟨rfl, h.1.symm, h.2.symm⟩
      | false =>
        simp only [hi, Bool.false_eq_true, if_false, Option.map_eq_some', Prod.mk.injEq] at h
        obtain ⟨s6, h6, h7, h8⟩ := h
        exact Or.inr ⟨rfl, by rw [h6, h7], h8.symm⟩

/-- The state after an event that `onKeyDown` processed to completion. -/
theorem onKeyDown_consume (E : Env σ) (cfg : Config) (s s1 : TextService σ) (keyEvent : KeyEvent)
    (session : EditSession) (h : onKeyDown E cfg s keyEvent session = some (s1, true)) :
    ∃ ctx ctx1 eff buf s2 a b c d mw mt nh tm,
      s.chewingContext_ = some ctx ∧
      handleKey E cfg s.langMode_ ctx keyEvent = some (ctx1, eff) ∧
      E.keystroke_CheckIgnore ctx1 = false ∧
      compositionBuf E ctx1 = some buf ∧
      reconcileCandidates E cfg (afterKey E s ctx1 eff) ctx1 session = some s2 ∧
      s1 = { s with chewingContext_ := some ctx1
                    langMode_ := a, langIcon := b, shapeMode_ := c, shapeIcon := d
                    candidateWindow_ := s2.candidateWindow_
                    showingCandidates_ := hasCandidates E ctx1
                    composition_ :=
                      if buf = [] then none
                      else some { text := buf, cursor := E.cursor_Current ctx1 }
                    log := s.log ++ eff ++ hostTrace E ctx1 s.composition_ buf
                    messageWindow_ := mw, messageTimerId_ := mt, nextHwnd := nh
                    timers := tm } := by
  obtain ⟨ctx, hctx, hcase⟩ := onKeyDown_result E cfg s s1 keyEvent session true h
  rcases hcase with ⟨_, _, hr⟩ | ⟨ctx1, eff, hk, hcase2⟩
  · simp at hr
  · rcases hcase2 with ⟨_, _, hr⟩ | ⟨hi, hrec, _⟩
    · simp at hr
    · obtain ⟨buf, s2, mw, mt, nh, tm, hb, hc, hs1⟩ := reconcile_eq E cfg _ s1 ctx1 session hrec
      obtain ⟨a, b, c, d, ha⟩ := afterKey_eq E s ctx1 eff
      have hctx1 : (afterKey E s ctx1 eff).chewingContext_ = some ctx1 := by rw [ha]
      obtain ⟨cw, hs2, -⟩ := reconcileCandidates_eq E cfg _ s2 ctx1 session hctx1 hc
      refine ⟨ctx, ctx1, eff, buf, s2, a, b, c, d, mw, mt, nh, tm, hctx, hk, hi, hb, hc, ?_⟩
      rw [hs1, hs2, ha]


theorem hideMessage_isSome (s : TextService σ)
    (hg : s.messageTimerId_ ≠ 0 → s.messageWindow_.isSome = true) :
    (hideMessage s).isSome = true := by
  unfold hideMessage
  by_cases ht : s.messageTimerId_ = 0
  · simp [ht]
  · have hw := hg ht
    cases hm : s.messageWindow_ with
    | none => simp [hm] at hw
    | some w => simp [ht]

theorem reconcileAux_isSome (E : Env σ) (s : TextService σ) (ctx : σ) (session : EditSession)
    (hg : s.messageTimerId_ ≠ 0 → s.messageWindow_.isSome = true) :
    (reconcileAux E s ctx session).isSome = true := by
  unfold reconcileAux showMessage
  have := hideMessage_isSome s hg
  split_ifs <;> simp [this]

theorem reconcileCandidates_isSome (E : Env σ) (cfg : Config) (s : TextService σ) (ctx : σ)
    (session : EditSession) (hctx : s.chewingContext_ = some ctx)
    (hg : s.showingCandidates_ = true → s.candidateWindow_.isSome = true) :
    (reconcileCandidates E cfg s ctx session).isSome = true := by
  unfold reconcileCandidates showingCandidates
  cases hsh : s.showingCandidates_
  · cases hcw : s.candidateWindow_ <;>
      simp [showCandidates, updateCandidates, hctx, hcw]
    all_goals split_ifs <;> simp
  · have hw := hg hsh
    cases hcw : s.candidateWindow_ with
    | none => simp [hcw] at hw
    | some w =>
      simp [updateCandidates, hideCandidates, hctx, hcw]
      split_ifs <;> simp

/-- With a context open and the guards of the windows satisfied, `onKeyDown`
returns on every key the engine does not ignore, unless the insertion of the
pending symbols is out of range. -/
theorem onKeyDown_returns (E : Env σ) (cfg : Config) (s : TextService σ) (keyEvent : KeyEvent)
    (session : EditSession) (ctx ctx1 : σ) (eff : List Effect) (buf : WStr)
    (hctx : s.chewingContext_ = some ctx)
    (hk : handleKey E cfg s.langMode_ ctx keyEvent = some (ctx1, eff))
    (hi : E.keystroke_CheckIgnore ctx1 = false) (hg : guardsHold s)
    (hb : compositionBuf E ctx1 = some buf) :
    ∃ s1, onKeyDown E cfg s keyEvent session = some (s1, true) := by
  obtain ⟨a, b, c, d, ha⟩ := afterKey_eq E s ctx1 eff
  have hc := reconcileCandidates_isSome E cfg (afterKey E s ctx1 eff) ctx1 session
    (by rw [ha]) (by rw [ha]; exact hg.1)
  obtain ⟨s2, hs2⟩ := Option.isSome_iff_exists.mp hc
  obtain ⟨cw, hcw, -⟩ := reconcileCandidates_eq E cfg _ s2 ctx1 session (by rw [ha]) hs2
  have hx := reconcileAux_isSome E
    (reconcileCursor E (reconcileBuffer (reconcileCommit E s2 ctx1) buf) ctx1) ctx1 session
    (by
      rw [reconcileCursor_eq, reconcileBuffer_eq, reconcileCommit_eq, hcw, ha]
      exact hg.2)
  obtain ⟨s6, hs6⟩ := Option.isSome_iff_exists.mp hx
  refine ⟨s6, ?_⟩
  simp [onKeyDown, hctx, hk, hi, reconcile, hs2, hb, hs6]


theorem keyDown_consume (E : Env σ) (cfg : Config) (s s1 : TextService σ) (keyEvent : KeyEvent)
    (session : EditSession) (h : keyDown E cfg s keyEvent session = some (s1, true)) :
    onKeyDown E cfg { s with lastKeyDownCode_ := keyEvent.keyCode } keyEvent session
      = some (s1, true) := by
  unfold keyDown at h
  simp only [Option.bind_eq_some] at h
  obtain ⟨⟨s0, r⟩, hf, hr⟩ := h
  have hs0 := filterKeyDown_frame s s0 keyEvent r hf
  cases r with
  | true => simpa [hs0] using hr
  | false => simp at hr

theorem isComposing_iff_of_composition (s1 : TextService σ) (buf : WStr) (c : Int)
    (h : s1.composition_ = if buf = [] then none else some { text := buf, cursor := c }) :
    isComposing s1 = true ↔ buf ≠ [] := by
  unfold isComposing
  rw [h]
  by_cases hb : buf = [] <;> simp [hb]

/-- C4: let `s` be a state reached from an idle state with language mode
Phonetic and shape mode Half by a run of printable-key events; after a further
printable-key event that `onKeyDown` processes to completion (the dispatch
returns Consume) the composition is active if and only if the combined display
string, the engine's buffer text with the pending symbols inserted, is
non-empty.  Nothing is assumed about a commit, so events on which committed
text was written first are covered. -/
theorem composing_iff_display (E : Env σ) (cfg : Config) (s0 s s1 : TextService σ)
    (evs : List (KeyEvent × EditSession)) (keyEvent : KeyEvent) (session : EditSession)
    (_hidle : s0.chewingContext_.isSome = true ∧ isComposing s0 = false ∧
      s0.showingCandidates_ = false ∧ s0.messageWindow_ = none)
    (_hmode : s0.langMode_ = CHINESE_MODE ∧ s0.shapeMode_ = HALFSHAPE_MODE)
    (_hevs : ∀ e ∈ evs, printableKey e.1 = true)
    (_hrun : keyDownRun E cfg s0 evs = some s)
    (_hp : printableKey keyEvent = true)
    (h : keyDown E cfg s keyEvent session = some (s1, true)) :
    ∃ ctx1 buf, s1.chewingContext_ = some ctx1 ∧ compositionBuf E ctx1 = some buf ∧
      (isComposing s1 = true ↔ buf ≠ []) := by
  have h1 := keyDown_consume E cfg s s1 keyEvent session h
  obtain ⟨ctx, ctx1, eff, buf, s2, a, b, c, d, mw, mt, nh, tm, -, -, -, hb, -, hs1⟩ :=
    onKeyDown_consume E cfg _ s1 keyEvent session h1
  refine ⟨ctx1, buf, by rw [hs1], hb, ?_⟩
  exact isComposing_iff_of_composition s1 buf (E.cursor_Current ctx1) (by rw [hs1])

/-- Witness for C4: after two converted syllables and a pending symbol, a Space
makes the example engine commit its oldest character; the composition stays
active and the display string is the two remaining characters. -/
theorem composing_iff_display_witness :
    ∃ ctx1 buf, toyAfter6.chewingContext_ = some ctx1 ∧ compositionBuf toyEnv ctx1 = some buf ∧
      (isComposing toyAfter6 = true ↔ buf ≠ []) :=
  composing_iff_display toyEnv toyConfig toyIdle toyAfter5 toyAfter6 toyEvents5 keySpace toySession
    ⟨by rfl, by rfl, by rfl, by rfl⟩ ⟨by rfl, by rfl⟩
    (by
      intro e he
      simp only [toyEvents5, List.mem_cons, List.mem_singleton, List.not_mem_nil, or_false] at he
      rcases he with h | h | h | h | h <;> subst h <;> rfl)
    (by rfl) (by rfl) (by rfl)

theorem wstringInsert_inRange (B Z : WStr) (c : Int) (h0 : 0 ≤ c) (h1 : c ≤ (B.length : Int)) :
    wstringInsert B c Z = some (B.take c.toNat ++ Z ++ B.drop c.toNat) ∧
    (B.take c.toNat ++ Z ++ B.drop c.toNat).length = B.length + Z.length := by
  refine ⟨by simp [wstringInsert, h0, h1], ?_⟩
  have h2 : c.toNat ≤ B.length := by omega
  simp only [List.length_append, List.length_take, List.length_drop]
  omega

/-- C5: for an engine state with confirmed buffer text `B`, pending symbols `Z`
and cursor offset `c` with `0 ≤ c ≤ length B`, the insertion at `c` is in range
and the string built is `B[0..c) ++ Z ++ B[c..)`, of length
`length B + length Z`; when the engine reports no pending symbols the string is
`B`; and after an event that `onKeyDown` processes to completion in that engine
state the composition holds exactly this string when it is non-empty, and no
composition is left when it is empty. -/
theorem compositionBuf_insert (E : Env σ) (ctx1 : σ)
    (h0 : 0 ≤ E.cursor_Current ctx1)
    (h1 : E.cursor_Current ctx1 ≤ ((bufferText E ctx1).length : Int)) :
    (∀ Z, pendingSymbols E ctx1 = some Z →
      compositionBuf E ctx1 =
        some ((bufferText E ctx1).take (E.cursor_Current ctx1).toNat ++ Z
              ++ (bufferText E ctx1).drop (E.cursor_Current ctx1).toNat) ∧
      ((bufferText E ctx1).take (E.cursor_Current ctx1).toNat ++ Z
        ++ (bufferText E ctx1).drop (E.cursor_Current ctx1).toNat).length
        = (bufferText E ctx1).length + Z.length) ∧
    (pendingSymbols E ctx1 = none → compositionBuf E ctx1 = some (bufferText E ctx1)) ∧
    (∀ (cfg : Config) (s s1 : TextService σ) (keyEvent : KeyEvent) (session : EditSession),
      onKeyDown E cfg s keyEvent session = some (s1, true) →
      s1.chewingContext_ = some ctx1 →
      ∃ buf, compositionBuf E ctx1 = some buf ∧
        (buf ≠ [] → s1.composition_ = some { text := buf, cursor := E.cursor_Current ctx1 }) ∧
        (buf = [] → s1.composition_ = none)) := by
  refine ⟨?_, ?_, ?_⟩
  · intro Z hZ
    have := wstringInsert_inRange (bufferText E ctx1) Z _ h0 h1
    exact ⟨by simp only [compositionBuf, hZ, this.1], this.2⟩
  · intro hZ
    simp only [compositionBuf, hZ]
  · intro cfg s s1 keyEvent session h hc
    obtain ⟨ctx, ctx2, eff, buf, s2, a, b, c, d, mw, mt, nh, tm, -, -, -, hb, -, hs1⟩ :=
      onKeyDown_consume E cfg s s1 keyEvent session h
    have : ctx2 = ctx1 := by
      rw [hs1] at hc
      simpa using hc
    subst this
    refine ⟨buf, hb, ?_, ?_⟩
    · intro hne
      rw [hs1]
      simp [hne]
    · intro he
      rw [hs1]
      simp [he]

/-- Witness for C5: in the state reached by `toyEvents5` the buffer holds two
characters, the cursor is at offset 2 and one symbol is pending; the composition
shows the two characters followed by the symbol. -/
theorem compositionBuf_insert_witness :
    compositionBuf toyEnv (toyAfter5.chewingContext_.getD Toy.fresh)
      = some [0x4E2D, 0x4E2D, 0x61] ∧
    toyAfter5.composition_ = some { text := [0x4E2D, 0x4E2D, 0x61], cursor := 2 } := by
  have h := compositionBuf_insert toyEnv (toyAfter5.chewingContext_.getD Toy.fresh)
    (by decide) (by decide)
  exact ⟨(h.1 [0x61] (by rfl)).1, by rfl⟩


theorem handleKey_effects (E : Env σ) (cfg : Config) (langMode : Int) (ctx ctx1 : σ)
    (keyEvent : KeyEvent) (eff : List Effect)
    (h : handleKey E cfg langMode ctx keyEvent = some (ctx1, eff)) :
    eff.filter Effect.isHost = [] := by
  unfold handleKey at h
  split_ifs at h
  · simp only [Option.some.injEq, Prod.mk.injEq] at h
    rw [← h.2]
    rfl
  · simp only [Option.some.injEq, Prod.mk.injEq] at h
    rw [← h.2]
    rfl
  · simp only [Option.some.injEq, Prod.mk.injEq] at h
    rw [← h.2]
    rfl
  · cases hn : namedKey keyEvent.keyCode with
    | none => simp [hn] at h
    | some cmd =>
      simp only [hn, Option.some.injEq, Prod.mk.injEq] at h
      rw [← h.2]
      rfl

/-- The host-document effects of an event processed to completion. -/
theorem onKeyDown_hostEffects (E : Env σ) (cfg : Config) (s s1 : TextService σ)
    (keyEvent : KeyEvent) (session : EditSession) (ctx ctx1 : σ) (eff : List Effect) (buf : WStr)
    (hctx : s.chewingContext_ = some ctx)
    (hk : handleKey E cfg s.langMode_ ctx keyEvent = some (ctx1, eff))
    (hb : compositionBuf E ctx1 = some buf)
    (h : onKeyDown E cfg s keyEvent session = some (s1, true)) :
    hostEffectsSince s.log.length s1.log = hostTrace E ctx1 s.composition_ buf ∧
    s1.composition_ = (if buf = [] then none
      else some { text := buf, cursor := E.cursor_Current ctx1 }) := by
  obtain ⟨ctx', ctx2, eff2, buf2, s2, a, b, c, d, mw, mt, nh, tm, hctx', hk2, -, hb2, -, hs1⟩ :=
    onKeyDown_consume E cfg s s1 keyEvent session h
  rw [hctx] at hctx'
  cases hctx'
  rw [hk] at hk2
  cases hk2
  rw [hb] at hb2
  cases hb2
  have hf := handleKey_effects E cfg _ _ _ _ _ hk
  have hh : (hostTrace E ctx1 s.composition_ buf).filter Effect.isHost
      = hostTrace E ctx1 s.composition_ buf := by
    unfold hostTrace
    split_ifs <;> rfl
  refine ⟨?_, by rw [hs1]⟩
  rw [hs1]
  simp only [hostEffectsSince, List.append_assoc, List.drop_left, List.filter_append, hf, hh,
    List.nil_append]

theorem onKeyDown_not_ignored (E : Env σ) (cfg : Config) (s s1 : TextService σ)
    (keyEvent : KeyEvent) (session : EditSession) (ctx ctx1 : σ) (eff : List Effect) (r : Bool)
    (hctx : s.chewingContext_ = some ctx)
    (hk : handleKey E cfg s.langMode_ ctx keyEvent = some (ctx1, eff))
    (hi : E.keystroke_CheckIgnore ctx1 = false)
    (h : onKeyDown E cfg s keyEvent session = some (s1, r)) : r = true := by
  obtain ⟨ctx', hctx', hcase⟩ := onKeyDown_result E cfg s s1 keyEvent session r h
  rw [hctx] at hctx'
  cases hctx'
  rcases hcase with ⟨hn, -, -⟩ | ⟨ctx2, eff2, hk2, hcase2⟩
  · rw [hk] at hn
    cases hn
  · rw [hk] at hk2
    cases hk2
    rcases hcase2 with ⟨hi2, -, -⟩ | ⟨-, -, hr⟩
    · rw [hi] at hi2
      cases hi2
    · exact hr

/-- C6: when the engine, after a key it did not ignore, reports committed text
ready and an empty display string (empty buffer, no pending symbols), the
host-document effects of `onKeyDown` are exactly: `startComposition` (only if no
composition was active), `setCompositionString` with the committed text,
`endComposition`, and nothing after; the composition is inactive on return; and
`onKeyDown` does return, with Consume, whenever the guards of its windows
hold. -/
theorem commit_then_clear (E : Env σ) (cfg : Config) (s : TextService σ) (keyEvent : KeyEvent)
    (session : EditSession) (ctx ctx1 : σ) (eff : List Effect)
    (hctx : s.chewingContext_ = some ctx)
    (hk : handleKey E cfg s.langMode_ ctx keyEvent = some (ctx1, eff))
    (hi : E.keystroke_CheckIgnore ctx1 = false)
    (hcommit : E.commit_Check ctx1 = true)
    (hbuf : bufferText E ctx1 = []) (hz : pendingSymbols E ctx1 = none) :
    (∀ s1 r, onKeyDown E cfg s keyEvent session = some (s1, r) →
      r = true ∧
      hostEffectsSince s.log.length s1.log =
        (if isComposing s then [] else [Effect.startComposition])
          ++ [Effect.setCompositionString (E.utf8ToUtf16 (E.commit_String ctx1)),
              Effect.endComposition] ∧
      isComposing s1 = false) ∧
    (guardsHold s → ∃ s1, onKeyDown E cfg s keyEvent session = some (s1, true)) := by
  have hb : compositionBuf E ctx1 = some [] := by
    simp only [compositionBuf, hz, hbuf]
  refine ⟨?_, fun hg => onKeyDown_returns E cfg s keyEvent session ctx ctx1 eff [] hctx hk hi hg hb⟩
  intro s1 r h
  have hr := onKeyDown_not_ignored E cfg s s1 keyEvent session ctx ctx1 eff r hctx hk hi h
  subst hr
  obtain ⟨hlog, hcomp⟩ := onKeyDown_hostEffects E cfg s s1 keyEvent session ctx ctx1 eff [] hctx hk hb h
  refine ⟨rfl, ?_, ?_⟩
  · rw [hlog]
    simp [hostTrace, hcommit, isComposing]
  · simp [isComposing, hcomp]

/-- Witness for C6: Enter in the state with one character in the buffer makes
the example engine commit it; the composition was active, so the effects are
the replacement by the committed text and the end of the composition. -/
theorem commit_then_clear_witness :
    keyDown toyEnv toyConfig toyAfter2 keyEnter toySession = some (toyCommitted, true) ∧
    hostEffectsSince toyAfter2.log.length toyCommitted.log =
      [Effect.setCompositionString [0x4E2D], Effect.endComposition] ∧
    isComposing toyCommitted = false := by
  have h := (commit_then_clear toyEnv toyConfig
    { toyAfter2 with lastKeyDownCode_ := keyEnter.keyCode } keyEnter toySession
    (toyAfter2.chewingContext_.getD Toy.fresh) (toyCommitted.chewingContext_.getD Toy.fresh)
    [Effect.engine EngineCmd.Enter] (by rfl) (by rfl) (by rfl) (by rfl) (by rfl) (by rfl)).1
    toyCommitted true (by rfl)
  exact ⟨by rfl, h.2.1, h.2.2⟩

/-- C7, as stated, fails: in the state reached by `toyEvents5` a Space makes the
example engine report committed text while two characters remain in the buffer,
and `onKeyDown` issues `endComposition` during that event. -/
theorem commit_ends_composition :
    keyDown toyEnv toyConfig toyAfter5 keySpace toySession = some (toyAfter6, true) ∧
    toyEnv.commit_Check (toyAfter6.chewingContext_.getD Toy.fresh) = true ∧
    compositionBuf toyEnv (toyAfter6.chewingContext_.getD Toy.fresh)
      = some [0x4E2D, 0x4E2D] ∧
    Effect.endComposition ∈ hostEffectsSince toyAfter5.log.length toyAfter6.log := by
  refine ⟨by rfl, by rfl, by rfl, ?_⟩
  decide

/-- C7 amended: when the engine, after a key it did not ignore, reports
committed text ready while the display string (buffer plus pending symbols) is
non-empty, `onKeyDown` writes the committed text into the composition (begun
first if none was active), ends that composition, then begins a new composition
that receives the display string and the cursor; the new composition is active
on return; and `onKeyDown` does return, with Consume, whenever the guards of its
windows hold. -/
theorem commit_then_recompose (E : Env σ) (cfg : Config) (s : TextService σ)
    (keyEvent : KeyEvent) (session : EditSession) (ctx ctx1 : σ) (eff : List Effect) (buf : WStr)
    (hctx : s.chewingContext_ = some ctx)
    (hk : handleKey E cfg s.langMode_ ctx keyEvent = some (ctx1, eff))
    (hi : E.keystroke_CheckIgnore ctx1 = false)
    (hcommit : E.commit_Check ctx1 = true)
    (hb : compositionBuf E ctx1 = some buf) (hne : buf ≠ []) :
    (∀ s1 r, onKeyDown E cfg s keyEvent session = some (s1, r) →
      r = true ∧
      hostEffectsSince s.log.length s1.log =
        (if isComposing s then [] else [Effect.startComposition])
          ++ [Effect.setCompositionString (E.utf8ToUtf16 (E.commit_String ctx1)),
              Effect.endComposition,
              Effect.startComposition,
              Effect.setCompositionString buf,
              Effect.setCompositionCursor (E.cursor_Current ctx1)] ∧
      s1.composition_ = some { text := buf, cursor := E.cursor_Current ctx1 }) ∧
    (guardsHold s → ∃ s1, onKeyDown E cfg s keyEvent session = some (s1, true)) := by
  refine ⟨?_, fun hg => onKeyDown_returns E cfg s keyEvent session ctx ctx1 eff buf hctx hk hi hg hb⟩
  intro s1 r h
  have hr := onKeyDown_not_ignored E cfg s s1 keyEvent session ctx ctx1 eff r hctx hk hi h
  subst hr
  obtain ⟨hlog, hcomp⟩ := onKeyDown_hostEffects E cfg s s1 keyEvent session ctx ctx1 eff buf hctx hk hb h
  refine ⟨rfl, ?_, ?_⟩
  · rw [hlog]
    simp [hostTrace, hcommit, isComposing, hne]
  · simp [hcomp, hne]

/-- Witness for C7 amended: the Space after `toyEvents5`. -/
theorem commit_then_recompose_witness :
    hostEffectsSince toyAfter5.log.length toyAfter6.log =
      [Effect.setCompositionString [0x4E2D], Effect.endComposition, Effect.startComposition,
       Effect.setCompositionString [0x4E2D, 0x4E2D], Effect.setCompositionCursor 2] ∧
    toyAfter6.composition_ = some { text := [0x4E2D, 0x4E2D], cursor := 2 } := by
  have h := (commit_then_recompose toyEnv toyConfig
    { toyAfter5 with lastKeyDownCode_ := keySpace.keyCode } keySpace toySession
    (toyAfter5.chewingContext_.getD Toy.fresh) (toyAfter6.chewingContext_.getD Toy.fresh)
    [Effect.engine EngineCmd.Space] [0x4E2D, 0x4E2D]
    (by rfl) (by rfl) (by rfl) (by rfl) (by rfl) (by decide)).1
    toyAfter6 true (by rfl)
  exact ⟨h.2.1, h.2.2⟩


/-- C8: after a key event that `onKeyDown` processes to completion, the
candidate list is shown (`showingCandidates_` is true and a candidate window
exists) if and only if the engine reports a pending candidate.  If candidates
are pending and none were shown, a visible window holding the current page
exists afterwards; if some were shown, the existing window holds the refreshed
page; if none are pending and some were shown, the window is gone and
`showingCandidates_` is false; otherwise the candidate state is as before. -/
theorem candidates_reconciled (E : Env σ) (cfg : Config) (s s1 : TextService σ)
    (keyEvent : KeyEvent) (session : EditSession)
    (h : onKeyDown E cfg s keyEvent session = some (s1, true)) :
    ∃ ctx1, s1.chewingContext_ = some ctx1 ∧
      ((s1.showingCandidates_ = true ∧ s1.candidateWindow_.isSome = true)
        ↔ hasCandidates E ctx1 = true) ∧
      (hasCandidates E ctx1 = true → s.showingCandidates_ = false →
        ∃ w, s1.candidateWindow_ = some w ∧ w.items = candidatePage E ctx1 [] ∧
          w.visible = true) ∧
      (hasCandidates E ctx1 = true → s.showingCandidates_ = true →
        ∃ w0 w, s.candidateWindow_ = some w0 ∧ s1.candidateWindow_ = some w ∧
          w.items = candidatePage E ctx1 [] ∧ w.visible = w0.visible) ∧
      (hasCandidates E ctx1 = false → s.showingCandidates_ = true →
        s1.candidateWindow_ = none ∧ s1.showingCandidates_ = false) ∧
      (hasCandidates E ctx1 = false → s.showingCandidates_ = false →
        s1.candidateWindow_ = s.candidateWindow_ ∧ s1.showingCandidates_ = false) := by
  obtain ⟨ctx, ctx1, eff, buf, s2, a, b, c, d, mw, mt, nh, tm, -, -, -, -, hc, hs1⟩ :=
    onKeyDown_consume E cfg s s1 keyEvent session h
  obtain ⟨a', b', c', d', ha⟩ := afterKey_eq E s ctx1 eff
  obtain ⟨cw, hs2, hshow, hhide, hkeep⟩ :=
    reconcileCandidates_eq E cfg _ s2 ctx1 session (by rw [ha]) hc
  have hcw : s1.candidateWindow_ = cw := by rw [hs1, hs2]
  have hsh : s1.showingCandidates_ = hasCandidates E ctx1 := by rw [hs1]
  have hs_sh : (afterKey E s ctx1 eff).showingCandidates_ = s.showingCandidates_ := by rw [ha]
  have hs_cw : (afterKey E s ctx1 eff).candidateWindow_ = s.candidateWindow_ := by rw [ha]
  rw [hs_sh, hs_cw] at hshow
  rw [hs_sh, hs_cw] at hhide
  rw [hs_sh, hs_cw] at hkeep
  refine ⟨ctx1, by rw [hs1], ?_, ?_, ?_, ?_, ?_⟩
  · rw [hsh, hcw]
    constructor
    · exact fun hh => hh.1
    · intro hh
      obtain ⟨w, hw, -⟩ := hshow hh
      exact ⟨hh, by rw [hw]; rfl⟩
  · intro hh hn
    obtain ⟨w, hw, hi, hv, -⟩ := hshow hh
    exact ⟨w, by rw [hcw, hw], hi, hv hn⟩
  · intro hh hn
    obtain ⟨w, hw, hi, -, hv⟩ := hshow hh
    obtain ⟨w0, hw0, hvis⟩ := hv hn
    exact ⟨w0, w, hw0, by rw [hcw, hw], hi, hvis⟩
  · intro hh hn
    exact ⟨by rw [hcw]; exact (hhide hh hn).2, by rw [hsh, hh]⟩
  · intro hh hn
    exact ⟨by rw [hcw]; exact hkeep hh hn, by rw [hsh, hh]⟩

/-- Witness for C8: Space in the state with one character in the buffer makes
the example engine offer three candidates; none were shown, so afterwards the
list is shown in a visible window. -/
theorem candidates_reconciled_witness :
    ∃ ctx1, toyCandidates.chewingContext_ = some ctx1 ∧
      ((toyCandidates.showingCandidates_ = true ∧ toyCandidates.candidateWindow_.isSome = true)
        ↔ hasCandidates toyEnv ctx1 = true) ∧
      hasCandidates toyEnv ctx1 = true ∧
      ∃ w, toyCandidates.candidateWindow_ = some w ∧ w.items = candidatePage toyEnv ctx1 [] ∧
        w.visible = true := by
  obtain ⟨ctx1, hc, hiff, hnew, -⟩ := candidates_reconciled toyEnv toyConfig
    { toyAfter2 with lastKeyDownCode_ := keySpace.keyCode } toyCandidates keySpace toySession
    (by rfl)
  have hctx : ctx1 = toyCandidates.chewingContext_.getD Toy.fresh := by
    rw [hc]
    rfl
  have hh : hasCandidates toyEnv ctx1 = true := by
    rw [hctx]
    rfl
  exact ⟨ctx1, hc, hiff, hh, hnew hh (by rfl)⟩


/-- The character handed to the engine in the temporary English branch of
`onKeyDown` (lines 214-218): letters with their case reversed. -/
theorem handleKey_temporaryEnglish (E : Env σ) (cfg : Config) (langMode : Int) (ctx : σ)
    (keyEvent : KeyEvent) (hp : printableKey keyEvent = true) (hl : langMode ≠ SYMBOL_MODE)
    (ht : temporaryEnglishMode cfg keyEvent = true) :
    ∃ k, handleKey E cfg langMode ctx keyEvent =
      some (E.set_ChiEngMode (E.handle (E.set_ChiEngMode ctx SYMBOL_MODE) (EngineCmd.Default k))
              (E.get_ChiEngMode ctx),
            [Effect.setChiEngMode SYMBOL_MODE, Effect.engine (EngineCmd.Default k),
             Effect.setChiEngMode (E.get_ChiEngMode ctx)]) := by
  unfold handleKey
  simp only [hp, hl, ht, if_true, if_false]
  exact ⟨_, rfl⟩

/-- C10: let the engine's language flag be a stored flag, in that it reads
Alphabetic after Alphabetic was written and reads its value from before the
event after that value was written back.  For a printable key handled in the
temporary-override branch (cached language mode not Alphabetic, and Caps Lock on
with the caps-lock preference, or Shift held without the full-shape-symbols
preference), the key is issued to an engine state whose flag is Alphabetic,
framed by the two writes of the flag; whatever `onKeyDown` returns, the engine's
flag then equals its value before the event; and on the ignore path `onKeyDown`
does return. -/
theorem temporaryEnglish_scoped (E : Env σ) (cfg : Config) (s : TextService σ)
    (keyEvent : KeyEvent) (session : EditSession) (ctx : σ)
    (hctx : s.chewingContext_ = some ctx)
    (hp : printableKey keyEvent = true) (hl : s.langMode_ ≠ SYMBOL_MODE)
    (ht : temporaryEnglishMode cfg keyEvent = true)
    (hsym : ∀ c, E.get_ChiEngMode (E.set_ChiEngMode c SYMBOL_MODE) = SYMBOL_MODE)
    (hold : ∀ c, E.get_ChiEngMode (E.set_ChiEngMode c (E.get_ChiEngMode ctx))
      = E.get_ChiEngMode ctx) :
    ∃ k c1,
      c1 = E.set_ChiEngMode ctx SYMBOL_MODE ∧ E.get_ChiEngMode c1 = SYMBOL_MODE ∧
      handleKey E cfg s.langMode_ ctx keyEvent =
        some (E.set_ChiEngMode (E.handle c1 (EngineCmd.Default k)) (E.get_ChiEngMode ctx),
              [Effect.setChiEngMode SYMBOL_MODE, Effect.engine (EngineCmd.Default k),
               Effect.setChiEngMode (E.get_ChiEngMode ctx)]) ∧
      (∀ s1 r, onKeyDown E cfg s keyEvent session = some (s1, r) →
        ∃ ctx1, s1.chewingContext_ = some ctx1 ∧
          E.get_ChiEngMode ctx1 = E.get_ChiEngMode ctx) ∧
      (E.keystroke_CheckIgnore
          (E.set_ChiEngMode (E.handle c1 (EngineCmd.Default k)) (E.get_ChiEngMode ctx)) = true →
        ∃ s1, onKeyDown E cfg s keyEvent session = some (s1, false)) := by
  obtain ⟨k, hk⟩ := handleKey_temporaryEnglish E cfg s.langMode_ ctx keyEvent hp hl ht
  refine ⟨k, _, rfl, hsym _, hk, ?_, ?_⟩
  · intro s1 r h
    obtain ⟨ctx', hctx', hcase⟩ := onKeyDown_result E cfg s s1 keyEvent session r h
    rw [hctx] at hctx'
    cases hctx'
    rcases hcase with ⟨hn, -, -⟩ | ⟨ctx1, eff, hk1, hcase2⟩
    · rw [hk] at hn
      cases hn
    · rw [hk] at hk1
      cases hk1
      refine ⟨E.set_ChiEngMode (E.handle (E.set_ChiEngMode ctx SYMBOL_MODE) (EngineCmd.Default k))
          (E.get_ChiEngMode ctx), ?_, hold _⟩
      obtain ⟨a, b, c, d, ha⟩ := afterKey_eq E s
        (E.set_ChiEngMode (E.handle (E.set_ChiEngMode ctx SYMBOL_MODE) (EngineCmd.Default k))
          (E.get_ChiEngMode ctx))
        [Effect.setChiEngMode SYMBOL_MODE, Effect.engine (EngineCmd.Default k),
          Effect.setChiEngMode (E.get_ChiEngMode ctx)]
      rcases hcase2 with ⟨-, hs1, -⟩ | ⟨-, hrec, -⟩
      · rw [hs1, ha]
      · obtain ⟨buf, s2, mw, mt, nh, tm, -, hc, hs1⟩ := reconcile_eq E cfg _ s1 _ session hrec
        obtain ⟨cw, hs2, -⟩ := reconcileCandidates_eq E cfg _ s2 _ session (by rw [ha]) hc
        rw [hs1, hs2, ha]
  · intro hi
    refine ⟨afterKey E s
      (E.set_ChiEngMode (E.handle (E.set_ChiEngMode ctx SYMBOL_MODE) (EngineCmd.Default k))
        (E.get_ChiEngMode ctx))
      [Effect.setChiEngMode SYMBOL_MODE, Effect.engine (EngineCmd.Default k),
        Effect.setChiEngMode (E.get_ChiEngMode ctx)], ?_⟩
    simp [onKeyDown, hctx, hk, hi]

/-- Witness for C10: `A` typed with Shift held, Shift not entering full-shape
symbols, in the idle Phonetic state of the example engine: the letter reaches
the engine in Alphabetic mode with its case reversed and is committed, and the
engine is back in Phonetic mode when `onKeyDown` returns. -/
theorem temporaryEnglish_scoped_witness :
    onKeyDown toyEnv toyConfigShift toyIdle keyShiftA toySession = some (toyShiftA, true) ∧
    toyShiftA.log =
      [Effect.setChiEngMode SYMBOL_MODE, Effect.engine (EngineCmd.Default 0x61),
       Effect.setChiEngMode CHINESE_MODE, Effect.startComposition,
       Effect.setCompositionString [0x61], Effect.endComposition] ∧
    ∃ ctx1, toyShiftA.chewingContext_ = some ctx1 ∧
      toyEnv.get_ChiEngMode ctx1 = toyEnv.get_ChiEngMode Toy.fresh := by
  obtain ⟨k, c1, -, -, -, hret, -⟩ := temporaryEnglish_scoped toyEnv toyConfigShift toyIdle
    keyShiftA toySession (toyIdle.chewingContext_.getD Toy.fresh) (by rfl) (by rfl) (by decide)
    (by rfl)
    (by intro c; rfl) (by intro c; rfl)
  exact ⟨by rfl, by rfl, hret toyShiftA true (by rfl)⟩

end StateMachine


/-! ## The candidate page -/

section CandidatePage

variable {σ : Type}

theorem fillPage_eq (E : Env σ) (selKeys : List Int) (n : Int) :
    ∀ (cands : List CStr) (i : Nat) (items : List (WStr × Option Nat)),
      fillPage E selKeys n i cands items =
        items ++ ((cands.take (n.toNat - i)).enumFrom i).map
          (fun p => (E.utf8ToUtf16 p.2, (selKeys.get? p.1).map toWchar)) := by
  intro cands
  induction cands with
  | nil => intro i items; simp [fillPage]
  | cons str rest ih =>
    intro i items
    simp only [fillPage]
    split_ifs with hlt
    · rw [ih]
      have hstep : n.toNat - i = (n.toNat - (i + 1)) + 1 := by omega
      rw [hstep, List.take_succ_cons, List.enumFrom_cons]
      simp
    · have hz : n.toNat - i = 0 := by omega
      simp [hz]

theorem fillPage_keys (E : Env σ) (selKeys : List Int) (n : Int)
    (hn : n ≤ (selKeys.length : Int)) :
    ∀ (cands : List CStr) (i : Nat) (items : List (WStr × Option Nat)),
      (fillPage E selKeys n i cands items).map Prod.snd =
        items.map Prod.snd ++
          (((selKeys.drop i).take (min (n.toNat - i) cands.length)).map
            (fun k => some (toWchar k))) := by
  intro cands
  induction cands with
  | nil => intro i items; simp [fillPage]
  | cons str rest ih =>
    intro i items
    simp only [fillPage]
    split_ifs with hlt
    · rw [ih]
      have hi : i < selKeys.length := by omega
      have hstep : min (n.toNat - i) (str :: rest).length
          = min (n.toNat - (i + 1)) rest.length + 1 := by
        simp only [List.length_cons]
        omega
      rw [hstep, List.drop_eq_getElem_cons hi, List.take_succ_cons]
      simp [List.getElem?_eq_getElem hi]
    · have hz : n.toNat - i = 0 := by omega
      simp [hz]

theorem toWchar_injOn (a b : Int) (ha : 0 ≤ a ∧ a < 65536) (hb : 0 ≤ b ∧ b < 65536)
    (h : toWchar a = toWchar b) : a = b := by
  unfold toWchar at h
  omega

theorem installedSelKeys_range (row : List Nat) (k : Int) (hk : k ∈ installedSelKeys row) :
    0 ≤ k ∧ k < 65536 := by
  unfold installedSelKeys at hk
  simp only [List.mem_map, List.mem_range] at hk
  obtain ⟨i, -, rfl⟩ := hk
  omega

theorem installedSelKeys_length (row : List Nat) : (installedSelKeys row).length = 10 := by
  simp [installedSelKeys]

theorem candidatePage_get (E : Env σ) (ctx : σ) (i : Nat)
    (hi : i < min (E.cand_ChoicePerPage ctx).toNat (E.cand_Enumerate ctx).length) :
    ∃ c, (E.cand_Enumerate ctx).get? i = some c ∧
      (candidatePage E ctx []).get? i =
        some (E.utf8ToUtf16 c, ((E.get_selKey ctx).get? i).map toWchar) := by
  have hk : i < (E.cand_Enumerate ctx).length := by omega
  have hn : i < (E.cand_ChoicePerPage ctx).toNat - 0 := by omega
  refine ⟨(E.cand_Enumerate ctx).get ⟨i, hk⟩, List.get?_eq_get hk, ?_⟩
  simp only [candidatePage, fillPage_eq, List.nil_append, List.get?_eq_getElem?,
    List.getElem?_map, List.getElem?_enumFrom, List.getElem?_take_of_lt hn,
    List.getElem?_eq_getElem hk, Option.map_some', Nat.zero_add]
  rfl

/-- C9: the page that `updateCandidates` puts into the candidate window has
exactly `min n k` entries, `n` the engine's candidates-per-page and `k` the
number of candidates its enumeration yields; entry `i` is the `i`-th enumerated
candidate paired with the `i`-th key of the selection-key table (no selector
when the table has no such index); if `n` does not exceed the size of the table
every index used is in range; and if moreover the table is the ten-key table
installed by `applyConfig` and its keys are distinct, the selectors of the page
are pairwise distinct. -/
theorem candidatePage_entries (E : Env σ) (ctx : σ) :
    (∀ (cfg : Config) (s : TextService σ) (session : EditSession) (w0 : CandidateWindow),
      s.candidateWindow_ = some w0 → s.chewingContext_ = some ctx →
      ∃ s1 w, updateCandidates E cfg s session = some s1 ∧ s1.candidateWindow_ = some w ∧
        w.items = candidatePage E ctx []) ∧
    (candidatePage E ctx []).length
      = min (E.cand_ChoicePerPage ctx).toNat (E.cand_Enumerate ctx).length ∧
    (∀ i, i < min (E.cand_ChoicePerPage ctx).toNat (E.cand_Enumerate ctx).length →
      ∃ c, (E.cand_Enumerate ctx).get? i = some c ∧
        (candidatePage E ctx []).get? i =
          some (E.utf8ToUtf16 c, ((E.get_selKey ctx).get? i).map toWchar)) ∧
    (E.cand_ChoicePerPage ctx ≤ ((E.get_selKey ctx).length : Int) →
      ∀ i, i < min (E.cand_ChoicePerPage ctx).toNat (E.cand_Enumerate ctx).length →
        ∃ c key, (E.cand_Enumerate ctx).get? i = some c ∧ (E.get_selKey ctx).get? i = some key ∧
          (candidatePage E ctx []).get? i = some (E.utf8ToUtf16 c, some (toWchar key))) ∧
    (∀ row, E.get_selKey ctx = installedSelKeys row → E.cand_ChoicePerPage ctx ≤ 10 →
      (E.get_selKey ctx).Nodup → ((candidatePage E ctx []).map Prod.snd).Nodup) := by
  refine ⟨?_, ?_, fun i hi => candidatePage_get E ctx i hi, ?_, ?_⟩
  · intro cfg s session w0 hw hc
    cases hr : session.selectionRect <;>
      simp [updateCandidates, hw, hc, hr]
  · simp [candidatePage, fillPage_eq, List.enumFrom_length, List.length_take]
  · intro hn i hi
    obtain ⟨c, hc, hp⟩ := candidatePage_get E ctx i hi
    have hlt : i < (E.get_selKey ctx).length := by omega
    refine ⟨c, (E.get_selKey ctx).get ⟨i, hlt⟩, hc, List.get?_eq_get hlt, ?_⟩
    rw [hp, List.get?_eq_get hlt]
    rfl
  · intro row hrow hn hnd
    have hlen : (E.get_selKey ctx).length = 10 := by rw [hrow, installedSelKeys_length]
    have hkeys := fillPage_keys E (E.get_selKey ctx) (E.cand_ChoicePerPage ctx)
      (by rw [hlen]; exact hn) (E.cand_Enumerate ctx) 0 []
    simp only [candidatePage]
    rw [hkeys]
    simp only [List.map_nil, List.nil_append, List.drop_zero]
    apply List.Nodup.map_on
    · intro a ha b hb hab
      have ha1 := installedSelKeys_range row a (by rw [← hrow]; exact List.mem_of_mem_take ha)
      have hb1 := installedSelKeys_range row b (by rw [← hrow]; exact List.mem_of_mem_take hb)
      exact toWchar_injOn a b ha1 hb1 (Option.some.inj hab)
    · exact List.Nodup.sublist (List.take_sublist _ _) hnd

/-- Witness for C9: three pending candidates with the selection keys `1`, `2`,
`3` give exactly three entries, paired with `1`, `2`, `3`; and with the ten-key
table installed by `applyConfig` the selectors of the page are distinct. -/
theorem candidatePage_entries_witness :
    (candidatePage toyEnv toyThree []).length = 3 ∧
    candidatePage toyEnv toyThree [] =
      [([0x41], some 0x31), ([0x42], some 0x32), ([0x43], some 0x33)] ∧
    ((candidatePage toyEnv (toyCandidates.chewingContext_.getD Toy.fresh) []).map Prod.snd).Nodup :=
  ⟨(candidatePage_entries toyEnv toyThree).2.1, by rfl,
   (candidatePage_entries toyEnv (toyCandidates.chewingContext_.getD Toy.fresh)).2.2.2.2
      toyConfig.selKeyRow (by rfl) (by decide) (by decide)⟩

end CandidatePage

/-! ## The transient message -/

section Message

variable {σ : Type}

theorem messageInv_new : messageInv (TextService.new : TextService σ) := by
  refine ⟨by simp [TextService.new], ?_, ?_, ?_⟩
  · intro t ht
    simp [TextService.new] at ht
  · intro h
    simp [TextService.new] at h
  · intro w hw
    simp [TextService.new] at hw

/-- In a state satisfying `messageInv`, `hideMessage` succeeds and leaves no
window, no remembered timer and no armed timer. -/
theorem hideMessage_of_inv (s : TextService σ) (hinv : messageInv s) :
    hideMessage s = some { s with messageWindow_ := none, messageTimerId_ := 0, timers := [] } := by
  rcases s with ⟨sc, lm, sm, lk, mw, mt, cw, cc, co, ko, li, si, tm, nh, lg⟩
  obtain ⟨-, h2, h3, -⟩ := hinv
  simp only at h2 h3
  cases mw with
  | none =>
    have hmt : mt = 0 := by
      by_contra hne
      simpa using h3 hne
    have htm : tm = [] := by
      cases tm with
      | nil => rfl
      | cons t rest =>
        obtain ⟨w, hw, -⟩ := h2 t (List.mem_cons_self _ _)
        simp at hw
    subst hmt
    subst htm
    simp [hideMessage]
  | some w =>
    have hall : ∀ t ∈ tm, t.hwnd = w.hwnd := by
      intro t ht
      obtain ⟨w1, hw1, hh, -⟩ := h2 t ht
      simp only [Option.some.injEq] at hw1
      rw [hh, hw1]
    by_cases hmt : mt = 0
    · subst hmt
      simp [hideMessage]
      exact hall
    · simp [hideMessage, hmt]
      intro a ha hne
      exact absurd (hall a ha) hne

/-- In a state satisfying `messageInv`, `showMessage` succeeds: the window it
creates carries the message and a fresh handle, and its timer is the only armed
timer. -/
theorem showMessage_of_inv (s : TextService σ) (session : EditSession) (m : WStr) (d : Int)
    (hinv : messageInv s) :
    ∃ s1 w, showMessage s session m d = some s1 ∧ w.hwnd = s.nextHwnd ∧ w.text = m ∧
      s1 = { s with messageWindow_ := some w, nextHwnd := s.nextHwnd + 1,
                    timers := [{ hwnd := w.hwnd, id := 1, elapse := d * 1000 }],
                    messageTimerId_ := 1 } := by
  have hh := hideMessage_of_inv s hinv
  unfold showMessage
  rw [hh]
  simp only [Option.map_some', List.filter_nil]
  exact ⟨_, _, rfl, rfl, rfl, rfl⟩

theorem messageStep_inv (s : TextService σ) (op : MessageOp) (hinv : messageInv s) :
    ∃ s1, messageStep s op = some s1 ∧ messageInv s1 := by
  cases op with
  | showMessage session m d =>
    obtain ⟨s1, w, hs, hw, -, hs1⟩ := showMessage_of_inv s session m d hinv
    refine ⟨s1, hs, ?_⟩
    subst hs1
    refine ⟨by simp, ?_, ?_, ?_⟩
    · intro t ht
      simp only [List.mem_singleton] at ht
      subst ht
      exact ⟨w, rfl, rfl, rfl⟩
    · intro _
      rfl
    · intro w1 hw1
      simp only [Option.some.injEq] at hw1
      subst hw1
      simp only
      omega
  | hideMessage =>
    refine ⟨_, hideMessage_of_inv s hinv, by simp, ?_, ?_, ?_⟩
    · intro t ht
      simp at ht
    · intro h
      simp at h
    · intro w hw
      simp at hw
  | onMessageTimeout =>
    refine ⟨_, hideMessage_of_inv s hinv, by simp, ?_, ?_, ?_⟩
    · intro t ht
      simp at ht
    · intro h
      simp at h
    · intro w hw
      simp at hw

theorem messageRun_inv (ops : List MessageOp) :
    ∀ s : TextService σ, messageInv s → ∃ s1, messageRun s ops = some s1 ∧ messageInv s1 := by
  induction ops with
  | nil => exact fun s hinv => ⟨s, rfl, hinv⟩
  | cons op rest ih =>
    intro s hinv
    obtain ⟨s1, hs1, hinv1⟩ := messageStep_inv s op hinv
    obtain ⟨s2, hs2, hinv2⟩ := ih s1 hinv1
    exact ⟨s2, by simp [messageRun, hs1, hs2], hinv2⟩

theorem messageStates_inv (ops : List MessageOp) :
    ∀ s : TextService σ, messageInv s → ∀ s1 ∈ messageStates s ops, messageInv s1 := by
  induction ops with
  | nil =>
    intro s hinv s1 hs1
    simp only [messageStates, List.mem_singleton] at hs1
    subst hs1
    exact hinv
  | cons op rest ih =>
    intro s hinv s1 hs1
    obtain ⟨s2, hs2, hinv2⟩ := messageStep_inv s op hinv
    simp only [messageStates, hs2, List.mem_cons] at hs1
    rcases hs1 with h | h
    · subst h
      exact hinv
    · exact ih s2 hinv2 s1 h

theorem hideMessage_noMessage (s : TextService σ) (hinv : messageInv s)
    (hw : s.messageWindow_ = none) : hideMessage s = some s := by
  rw [hideMessage_of_inv s hinv]
  rcases s with ⟨sc, lm, sm, lk, mw, mt, cw, cc, co, ko, li, si, tm, nh, lg⟩
  obtain ⟨-, h2, h3, -⟩ := hinv
  simp only at h2 h3 hw
  subst hw
  have hmt : mt = 0 := by
    by_contra hne
    simpa using h3 hne
  have htm : tm = [] := by
    cases tm with
    | nil => rfl
    | cons t rest =>
      obtain ⟨w, hw, -⟩ := h2 t (List.mem_cons_self _ _)
      simp at hw
  subst hmt
  subst htm
  rfl

/-- C11: from a state satisfying `messageInv` (the constructed object does), any
sequence of `showMessage`, `hideMessage` and `onMessageTimeout` runs to its end,
and in every state passed through at most one message window exists, at most one
timer is armed, and an armed timer belongs to the existing window.  In each such
state `showMessage` first removes the old window and disarms the old timer (the
state left by its `hideMessage` has neither), then creates the window carrying
the new message under a fresh handle and arms its timer, which is then the only
armed timer; and `hideMessage` or a timer expiry without a message changes
nothing, `hideMessage` being idempotent. -/
theorem message_preemption (s : TextService σ) (ops : List MessageOp) (hinv : messageInv s) :
    (∃ s1, messageRun s ops = some s1 ∧ messageInv s1) ∧
    (∀ s1 ∈ messageStates s ops,
      (messageWindows s1).length ≤ 1 ∧ s1.timers.length ≤ 1 ∧
      (∀ t ∈ s1.timers, ∃ w ∈ messageWindows s1, t.hwnd = w.hwnd)) ∧
    (∀ session m d, ∃ s0 s1 w,
      hideMessage s = some s0 ∧ messageWindows s0 = [] ∧ s0.timers = [] ∧
      showMessage s session m d = some s1 ∧ messageWindows s1 = [w] ∧ w.text = m ∧
      s1.timers = [{ hwnd := w.hwnd, id := 1, elapse := d * 1000 }] ∧
      (∀ w0 ∈ messageWindows s, w0.hwnd ≠ w.hwnd)) ∧
    (s.messageWindow_ = none → hideMessage s = some s ∧ onMessageTimeout s = some s) ∧
    (∀ s1, hideMessage s = some s1 → hideMessage s1 = some s1) := by
  refine ⟨messageRun_inv ops s hinv, ?_, ?_, ?_, ?_⟩
  · intro s1 hs1
    obtain ⟨h1, h2, -, -⟩ := messageStates_inv ops s hinv s1 hs1
    refine ⟨?_, h1, ?_⟩
    · unfold messageWindows
      cases s1.messageWindow_ <;> simp
    · intro t ht
      obtain ⟨w, hw, hh, -⟩ := h2 t ht
      exact ⟨w, by simp [messageWindows, hw], hh⟩
  · intro session m d
    obtain ⟨s1, w, hs, hw, hm, hs1⟩ := showMessage_of_inv s session m d hinv
    refine ⟨_, s1, w, hideMessage_of_inv s hinv, rfl, rfl, hs, ?_, hm, ?_, ?_⟩
    · rw [hs1]
      rfl
    · rw [hs1]
    · intro w0 hw0
      have h4 := hinv.2.2.2 w0 (by simpa [messageWindows] using hw0)
      omega
  · intro hw
    exact ⟨hideMessage_noMessage s hinv hw, hideMessage_noMessage s hinv hw⟩
  · intro s1 hs1
    rw [hideMessage_of_inv s hinv] at hs1
    simp only [Option.some.injEq] at hs1
    have hinv1 : messageInv s1 := by
      obtain ⟨s2, h2, hi2⟩ := messageStep_inv s MessageOp.hideMessage hinv
      have : s2 = s1 := by
        simp only [messageStep] at h2
        rw [hideMessage_of_inv s hinv] at h2
        simp only [Option.some.injEq] at h2
        rw [← h2, hs1]
      rw [← this]
      exact hi2
    exact hideMessage_noMessage s1 hinv1 (by rw [← hs1])

/-- Witness for C11: two messages shown in immediate succession in the idle
state of the example engine leave exactly the second message and only its
timer; the whole sequence `toyMessageOps` then ends without message or timer. -/
theorem message_preemption_witness :
    messageRun toyIdle (toyMessageOps.take 2) = some toyMessage2 ∧
    toyMessage2.messageWindow_.map (fun w => w.text) = some [0x32] ∧
    toyMessage2.timers = [{ hwnd := 2, id := 1, elapse := 2000 }] ∧
    toyMessage1.timers = [{ hwnd := 1, id := 1, elapse := 2000 }] ∧
    (∃ s1, messageRun toyIdle toyMessageOps = some s1 ∧ messageInv s1) := by
  have hinv : messageInv toyIdle := by
    refine ⟨by decide, ?_, ?_, ?_⟩
    · intro t ht
      have hnil : toyIdle.timers = [] := by rfl
      rw [hnil] at ht
      exact absurd ht (List.not_mem_nil t)
    · intro h
      exact absurd rfl h
    · intro w hw
      have hnone : toyIdle.messageWindow_ = none := by rfl
      rw [hnone] at hw
      cases hw
  exact ⟨by rfl, by rfl, by rfl, by rfl, (message_preemption toyIdle toyMessageOps hinv).1⟩

end Message

/-! ## The Shift tap -/

section ShiftTap

variable {σ : Type}

theorem updateLangButtons_last (E : Env σ) (s : TextService σ) :
    (updateLangButtons E s).lastKeyDownCode_ = s.lastKeyDownCode_ := by
  obtain ⟨a, b, c, d, h⟩ := updateLangButtons_eq E s
  rw [h]

theorem onKeyDown_last (E : Env σ) (cfg : Config) (s s1 : TextService σ) (keyEvent : KeyEvent)
    (session : EditSession) (r : Bool) (h : onKeyDown E cfg s keyEvent session = some (s1, r)) :
    s1.lastKeyDownCode_ = s.lastKeyDownCode_ := by
  obtain ⟨ctx, -, hcase⟩ := onKeyDown_result E cfg s s1 keyEvent session r h
  rcases hcase with ⟨-, hs1, -⟩ | ⟨ctx1, eff, -, hcase2⟩
  · rw [hs1]
  · obtain ⟨a, b, c, d, ha⟩ := afterKey_eq E s ctx1 eff
    rcases hcase2 with ⟨-, hs1, -⟩ | ⟨-, hrec, -⟩
    · rw [hs1, ha]
    · obtain ⟨buf, s2, mw, mt, nh, tm, -, hc, hs1⟩ := reconcile_eq E cfg _ s1 ctx1 session hrec
      obtain ⟨cw, hs2, -⟩ := reconcileCandidates_eq E cfg _ s2 ctx1 session (by rw [ha]) hc
      rw [hs1, hs2, ha]

theorem keyDown_last (E : Env σ) (cfg : Config) (s s1 : TextService σ) (keyEvent : KeyEvent)
    (session : EditSession) (r : Bool) (h : keyDown E cfg s keyEvent session = some (s1, r)) :
    s1.lastKeyDownCode_ = keyEvent.keyCode := by
  unfold keyDown at h
  simp only [Option.bind_eq_some] at h
  obtain ⟨⟨s0, c⟩, hf, hr⟩ := h
  have hs0 := filterKeyDown_frame s s0 keyEvent c hf
  cases c with
  | true =>
    simp only [if_true] at hr
    rw [onKeyDown_last E cfg s0 s1 keyEvent session r hr, hs0]
  | false =>
    simp only [Bool.false_eq_true, if_false, Option.some.injEq, Prod.mk.injEq] at hr
    rw [← hr.1, hs0]

theorem filterKeyUp_last (E : Env σ) (s : TextService σ) (keyEvent : KeyEvent) :
    (filterKeyUp E s keyEvent).1.lastKeyDownCode_ = 0 ∧ (filterKeyUp E s keyEvent).2 = false ∧
    keyUp E s keyEvent = filterKeyUp E s keyEvent := by
  refine ⟨rfl, rfl, ?_⟩
  simp [keyUp, filterKeyUp]

theorem applyConfig_last (E : Env σ) (cfg : Config) (s : TextService σ) :
    (applyConfig E cfg s).lastKeyDownCode_ = s.lastKeyDownCode_ := by
  unfold applyConfig
  cases s.chewingContext_ <;> rfl

theorem initChewingContext_last (E : Env σ) (cfg : Config) (s : TextService σ) :
    (initChewingContext E cfg s).lastKeyDownCode_ = s.lastKeyDownCode_ := by
  unfold initChewingContext
  rw [applyConfig_last]
  cases s.chewingContext_ <;> rfl

theorem freeChewingContext_last (s : TextService σ) :
    (freeChewingContext s).lastKeyDownCode_ = s.lastKeyDownCode_ := by
  unfold freeChewingContext
  cases s.chewingContext_ <;> rfl

theorem toggleShapeMode_last (E : Env σ) (s : TextService σ) :
    (toggleShapeMode E s).lastKeyDownCode_ = s.lastKeyDownCode_ := by
  unfold toggleShapeMode
  cases s.chewingContext_ with
  | none => rfl
  | some ctx => simp only [updateLangButtons_last]

theorem onPreservedKey_last (E : Env σ) (cfg : Config) (s : TextService σ) (guid : PreservedKey)
    (hasContext : Bool) : (onPreservedKey E cfg s guid hasContext).1.lastKeyDownCode_ = 0 := by
  cases guid with
  | shiftSpace => simp only [onPreservedKey, toggleShapeMode_last]
  | ctrlSpace =>
    simp only [onPreservedKey]
    split_ifs
    · simp only [initChewingContext_last]
    · simp only [freeChewingContext_last, endComposition]
    · simp only [freeChewingContext_last]
  | other => rfl

theorem onDeactivate_last (s s1 : TextService σ) (h : onDeactivate s = some s1) :
    s1.lastKeyDownCode_ = 0 := by
  unfold onDeactivate at h
  simp only [Option.map_eq_some'] at h
  obtain ⟨s2, hh, hs1⟩ := h
  obtain ⟨t, ht⟩ := hideMessage_eq _ s2 hh
  have h2 : s2.lastKeyDownCode_ = 0 := by
    rw [ht]
    simp only [freeChewingContext_last]
  rw [← hs1]
  cases s2.candidateWindow_ <;> exact h2

theorem inputStep_last (E : Env σ) (cfg : Config) (s s1 : TextService σ) (ev : InputEvent)
    (h : inputStep E cfg s ev = some s1) :
    s1.lastKeyDownCode_ = VK_SHIFT ↔ lastIsShiftDown [ev] = true := by
  have hne : (0 : Nat) ≠ VK_SHIFT := by decide
  cases ev with
  | keyDown keyEvent session =>
    simp only [inputStep, Option.map_eq_some'] at h
    obtain ⟨⟨s2, r⟩, hk, hs⟩ := h
    simp only at hs
    subst hs
    rw [keyDown_last E cfg s s2 keyEvent session r hk]
    simp [lastIsShiftDown]
  | keyUp keyEvent =>
    simp only [inputStep, Option.some.injEq] at h
    rw [← h, (filterKeyUp_last E s keyEvent).2.2, (filterKeyUp_last E s keyEvent).1]
    simp [lastIsShiftDown, hne]
  | preservedKey guid hasContext =>
    simp only [inputStep, Option.some.injEq] at h
    rw [← h, onPreservedKey_last]
    simp [lastIsShiftDown, hne]
  | deactivate =>
    simp only [inputStep] at h
    rw [onDeactivate_last s s1 h]
    simp [lastIsShiftDown, hne]

theorem inputRun_append (E : Env σ) (cfg : Config) (evs : List InputEvent) (ev : InputEvent) :
    ∀ s : TextService σ, inputRun E cfg s (evs ++ [ev]) =
      (inputRun E cfg s evs).bind fun s1 => inputStep E cfg s1 ev := by
  induction evs with
  | nil =>
    intro s
    simp only [List.nil_append, inputRun, Option.some_bind]
    cases inputStep E cfg s ev <;> rfl
  | cons e rest ih =>
    intro s
    simp only [List.cons_append, inputRun]
    cases inputStep E cfg s e with
    | none => rfl
    | some s1 => exact ih s1

/-- The remembered key is Shift exactly when the last event was a key-down of
Shift. -/
theorem inputRun_last (E : Env σ) (cfg : Config) (s0 s : TextService σ) (evs : List InputEvent)
    (h0 : s0.lastKeyDownCode_ = 0) (hrun : inputRun E cfg s0 evs = some s) :
    s.lastKeyDownCode_ = VK_SHIFT ↔ lastIsShiftDown evs = true := by
  rcases List.eq_nil_or_concat evs with hnil | ⟨pre, ev, hcat⟩
  · subst hnil
    simp only [inputRun, Option.some.injEq] at hrun
    rw [← hrun, h0]
    simp [lastIsShiftDown, VK_SHIFT]
  · subst hcat
    rw [List.concat_eq_append, inputRun_append] at hrun
    simp only [Option.bind_eq_some] at hrun
    obtain ⟨s1, -, hstep⟩ := hrun
    rw [inputStep_last E cfg s1 s ev hstep]
    simp [lastIsShiftDown]

theorem toggleLanguageMode_eq (E : Env σ) (s : TextService σ) (ctx : σ)
    (hctx : s.chewingContext_ = some ctx) :
    ∃ a b c d, toggleLanguageMode E s =
      { s with chewingContext_ :=
                 some (E.set_ChiEngMode ctx (intNot (E.get_ChiEngMode ctx)))
               log := s.log ++ [Effect.setChiEngMode (intNot (E.get_ChiEngMode ctx))]
               langMode_ := a, langIcon := b, shapeMode_ := c, shapeIcon := d } := by
  unfold toggleLanguageMode
  rw [hctx]
  obtain ⟨a, b, c, d, h⟩ := updateLangButtons_eq E
    { s with chewingContext_ := some (E.set_ChiEngMode ctx (intNot (E.get_ChiEngMode ctx)))
             log := s.log ++ [Effect.setChiEngMode (intNot (E.get_ChiEngMode ctx))] }
  exact ⟨a, b, c, d, h⟩

theorem intNot_ne (m : Int) : intNot m ≠ m := by
  unfold intNot
  split_ifs with h
  · rw [h]
    decide
  · exact fun h0 => h h0.symm

/-- C12: let `s` be the state reached from a state without remembered key by a
sequence of key-down, key-up, preserved-chord and deactivation events, with an
engine context open in `s`, the engine's language flag reading back the value
the toggle writes.  A key-up in `s` changes the engine's language flag if and
only if the released key is Shift and the last event of the sequence was a
key-down of Shift, and then the flag is the negation of its old value; any
other key-up leaves the state unchanged but for the remembered key, in
particular the engine and the cached language mode.  In both cases `filterKeyUp`
returns PassThrough (so `onKeyUp` is not run), clears the remembered key, and
leaves the composition, the candidate state and the message state as they
were. -/
theorem shiftTap_toggles (E : Env σ) (cfg : Config) (s0 s : TextService σ)
    (evs : List InputEvent) (keyEvent : KeyEvent) (ctx : σ)
    (h0 : s0.lastKeyDownCode_ = 0)
    (hrun : inputRun E cfg s0 evs = some s)
    (hctx : s.chewingContext_ = some ctx)
    (hflag : E.get_ChiEngMode (E.set_ChiEngMode ctx (intNot (E.get_ChiEngMode ctx)))
      = intNot (E.get_ChiEngMode ctx)) :
    ∃ ctx1, (filterKeyUp E s keyEvent).1.chewingContext_ = some ctx1 ∧
      (E.get_ChiEngMode ctx1 ≠ E.get_ChiEngMode ctx ↔
        (keyEvent.keyCode = VK_SHIFT ∧ lastIsShiftDown evs = true)) ∧
      ((keyEvent.keyCode = VK_SHIFT ∧ lastIsShiftDown evs = true) →
        ctx1 = E.set_ChiEngMode ctx (intNot (E.get_ChiEngMode ctx)) ∧
        E.get_ChiEngMode ctx1 = intNot (E.get_ChiEngMode ctx)) ∧
      (¬ (keyEvent.keyCode = VK_SHIFT ∧ lastIsShiftDown evs = true) →
        (filterKeyUp E s keyEvent).1 = { s with lastKeyDownCode_ := 0 }) ∧
      (filterKeyUp E s keyEvent).2 = false ∧
      keyUp E s keyEvent = filterKeyUp E s keyEvent ∧
      (filterKeyUp E s keyEvent).1.lastKeyDownCode_ = 0 ∧
      (filterKeyUp E s keyEvent).1.composition_ = s.composition_ ∧
      (filterKeyUp E s keyEvent).1.showingCandidates_ = s.showingCandidates_ ∧
      (filterKeyUp E s keyEvent).1.candidateWindow_ = s.candidateWindow_ ∧
      (filterKeyUp E s keyEvent).1.messageWindow_ = s.messageWindow_ ∧
      (filterKeyUp E s keyEvent).1.messageTimerId_ = s.messageTimerId_ ∧
      (filterKeyUp E s keyEvent).1.timers = s.timers := by
  have hlast := inputRun_last E cfg s0 s evs h0 hrun
  obtain ⟨hl0, hr, hku⟩ := filterKeyUp_last E s keyEvent
  by_cases hc : keyEvent.keyCode = VK_SHIFT ∧ lastIsShiftDown evs = true
  · have hcond : s.lastKeyDownCode_ = VK_SHIFT ∧ keyEvent.keyCode = VK_SHIFT :=
      ⟨hlast.mpr hc.2, hc.1⟩
    obtain ⟨a, b, c, d, ht⟩ := toggleLanguageMode_eq E s ctx hctx
    have hf : (filterKeyUp E s keyEvent).1 =
        { toggleLanguageMode E s with lastKeyDownCode_ := 0 } := by
      simp only [filterKeyUp, hcond, and_self, if_true]
    refine ⟨E.set_ChiEngMode ctx (intNot (E.get_ChiEngMode ctx)), ?_, ?_, ?_, ?_, hr, hku, hl0,
      ?_, ?_, ?_, ?_, ?_, ?_⟩
    · rw [hf, ht]
    · rw [hflag]
      exact ⟨fun _ => hc, fun _ => intNot_ne _⟩
    · exact fun _ => ⟨rfl, hflag⟩
    · exact fun hn => absurd hc hn
    all_goals rw [hf, ht]
  · have hcond : ¬ (s.lastKeyDownCode_ = VK_SHIFT ∧ keyEvent.keyCode = VK_SHIFT) :=
      fun h => hc ⟨h.2, hlast.mp h.1⟩
    have hf : (filterKeyUp E s keyEvent).1 = { s with lastKeyDownCode_ := 0 } := by
      simp only [filterKeyUp, hcond, if_false]
    refine ⟨ctx, ?_, ?_, ?_, ?_, hr, hku, hl0, ?_, ?_, ?_, ?_, ?_, ?_⟩
    · rw [hf]
      exact hctx
    · exact ⟨fun h => absurd rfl h, fun h => absurd h hc⟩
    · exact fun h => absurd h hc
    · exact fun _ => hf
    all_goals rw [hf]

/-- Witness for C12: after `a` went down and up and Shift went down, releasing
Shift switches the example engine from Phonetic to Alphabetic; after Shift went
down and `a` was typed while it was held, releasing Shift changes nothing but
the remembered key. -/
theorem shiftTap_toggles_witness :
    inputRun toyEnv toyConfig toyIdle toyTapEvents = some toyShiftDown ∧
    (∃ ctx1, (filterKeyUp toyEnv toyShiftDown keyShift).1.chewingContext_ = some ctx1 ∧
      toyEnv.get_ChiEngMode ctx1 = SYMBOL_MODE) ∧
    inputRun toyEnv toyConfig toyIdle toyChordEvents = some toyChordDone ∧
    (filterKeyUp toyEnv toyChordDone keyShift).1 = { toyChordDone with lastKeyDownCode_ := 0 } := by
  obtain ⟨ctx1, hc1, -, hflip, -⟩ := shiftTap_toggles toyEnv toyConfig toyIdle toyShiftDown
    toyTapEvents keyShift (toyShiftDown.chewingContext_.getD Toy.fresh)
    (by rfl) (by rfl) (by rfl) (by rfl)
  obtain ⟨ctx2, -, -, -, hkeep, -⟩ := shiftTap_toggles toyEnv toyConfig toyIdle toyChordDone
    toyChordEvents keyShift (toyChordDone.chewingContext_.getD Toy.fresh)
    (by rfl) (by rfl) (by rfl) (by rfl)
  refine ⟨by rfl, ⟨ctx1, hc1, ?_⟩, by rfl, hkeep ?_⟩
  · rw [(hflip ⟨by rfl, by rfl⟩).2]
    rfl
  · intro h
    exact absurd h.2 (by decide)

end ShiftTap

/-! ## Deactivation while the candidate list is shown -/

section Deactivation

variable {σ : Type}

/-- `onDeactivate` removes the candidate window and leaves `showingCandidates_`
as it was. -/
theorem onDeactivate_candidates (s s1 : TextService σ) (h : onDeactivate s = some s1) :
    s1.candidateWindow_ = none ∧ s1.showingCandidates_ = s.showingCandidates_ := by
  unfold onDeactivate at h
  simp only [Option.map_eq_some'] at h
  obtain ⟨s2, hh, hs1⟩ := h
  obtain ⟨t, ht⟩ := hideMessage_eq _ s2 hh
  have hsh : s2.showingCandidates_ = s.showingCandidates_ := by
    rw [ht]
    unfold freeChewingContext
    cases s.chewingContext_ <;> rfl
  rw [← hs1]
  cases hcw : s2.candidateWindow_ with
  | none => exact ⟨hcw, hsh⟩
  | some w => exact ⟨rfl, hsh⟩

/-- `onActivate` touches neither the candidate window nor `showingCandidates_`. -/
theorem onActivate_candidates (E : Env σ) (cfg : Config) (s : TextService σ) :
    (onActivate E cfg s).candidateWindow_ = s.candidateWindow_ ∧
    (onActivate E cfg s).showingCandidates_ = s.showingCandidates_ := by
  obtain ⟨a, b, c, d, h⟩ := updateLangButtons_eq E (initChewingContext E cfg s)
  unfold onActivate
  rw [h]
  rcases s with ⟨sc, lm, sm, lk, mw, mt, cw, cc, co, ko, li, si, tm, nh, lg⟩
  cases cc <;> exact ⟨rfl, rfl⟩

/-- Candidate reconciliation has no result in a state whose candidate list
counts as shown while no candidate window exists. -/
theorem reconcileCandidates_none (E : Env σ) (cfg : Config) (s : TextService σ) (ctx : σ)
    (session : EditSession) (hsh : s.showingCandidates_ = true)
    (hcw : s.candidateWindow_ = none) :
    reconcileCandidates E cfg s ctx session = none := by
  unfold reconcileCandidates showingCandidates
  rw [hsh]
  cases hasCandidates E ctx <;> simp [updateCandidates, hideCandidates, hcw]

/-- After `onDeactivate` in a state with the candidate list shown and a
following `onActivate`, `onKeyDown` has no result on any key that the engine
handles and does not ignore. -/
theorem onKeyDown_after_deactivate (E : Env σ) (cfg : Config) (s s1 : TextService σ)
    (keyEvent : KeyEvent) (session : EditSession) (ctx ctx1 : σ) (eff : List Effect)
    (hsh : s.showingCandidates_ = true) (hd : onDeactivate s = some s1)
    (hctx : (onActivate E cfg s1).chewingContext_ = some ctx)
    (hk : handleKey E cfg (onActivate E cfg s1).langMode_ ctx keyEvent = some (ctx1, eff))
    (hi : E.keystroke_CheckIgnore ctx1 = false) :
    onKeyDown E cfg (onActivate E cfg s1) keyEvent session = none := by
  obtain ⟨hcw1, hsh1⟩ := onDeactivate_candidates s s1 hd
  obtain ⟨hcw2, hsh2⟩ := onActivate_candidates E cfg s1
  obtain ⟨a, b, c, d, ha⟩ := afterKey_eq E (onActivate E cfg s1) ctx1 eff
  have hrc := reconcileCandidates_none E cfg (afterKey E (onActivate E cfg s1) ctx1 eff) ctx1
    session (by rw [ha]; simp only; rw [hsh2, hsh1, hsh]) (by rw [ha]; simp only; rw [hcw2, hcw1])
  simp [onKeyDown, hctx, hk, hi, reconcile, hrc]

/-- C13 fails on the code: with the candidate list shown (`toyShown`),
`onDeactivate` deletes the candidate window but leaves `showingCandidates_`
true, and `onActivate` changes neither.  In the state reached, the assertion of
`updateCandidates` and that of `hideCandidates` both fail, so the next key has
no result, whether the engine again reports candidates (backquote) or no longer
does (`a`); with `showingCandidates_` reset, as `hideCandidates` does when it
deletes the window, both keys are processed. -/
theorem deactivate_leaves_showingCandidates :
    (toyShown.showingCandidates_ = true ∧ toyShown.candidateWindow_.isSome = true) ∧
    onDeactivate toyShown = some toyDeactivated ∧
    (toyReactivated.showingCandidates_ = true ∧ toyReactivated.candidateWindow_ = none ∧
      toyReactivated.chewingContext_.isSome = true) ∧
    ¬ guardsHold toyReactivated ∧
    (updateCandidates toyEnvSymbols toyConfig toyReactivated toySession = none ∧
      keyDown toyEnvSymbols toyConfig toyReactivated keyBackquote toySession = none) ∧
    (hideCandidates toyReactivated = none ∧
      keyDown toyEnvSymbols toyConfig toyReactivated keyA toySession = none) ∧
    ((keyDown toyEnvSymbols toyConfig { toyReactivated with showingCandidates_ := false }
        keyBackquote toySession).map Prod.snd = some true ∧
      (keyDown toyEnvSymbols toyConfig { toyReactivated with showingCandidates_ := false }
        keyA toySession).map Prod.snd = some true) := by
  refine ⟨⟨by rfl, by rfl⟩, by rfl, ⟨by rfl, by rfl, by rfl⟩, ?_, ⟨by rfl, by rfl⟩,
    ⟨by rfl, by rfl⟩, ⟨by rfl, by rfl⟩⟩
  intro hg
  have h := hg.1 (by rfl)
  exact absurd h (by decide)

end Deactivation

end Chewing
